import Mathlib

/-!
# Child-process supervision (`src/util/child_process.cc`)

A shallow embedding of `ChildProcess` (one forked child and its observed
life-cycle state) and of `ProcessManager` (the table of tracked children and
its signal callback), followed by theorems about them.

The operating system is an explicit parameter: a `Kernel σ` is a deterministic
state machine over an arbitrary state type `σ` that answers the system calls
the code makes.  Every method threads the kernel state, so the order and the
number of system calls are part of the model.  Wrapping a kernel with
`Kernel.logged` records each call it answers, which is how theorems speak about
"what was probed or waited on".

C++ exceptions and failed `assert`s are values of `Failure`; a method that can
throw returns `Except Failure _` next to the kernel state it leaves behind.
The diagnostics written to `cerr` are not part of the model.
-/

namespace Puffer

/-! ## Constants of `<signal.h>`, `<sys/wait.h>` and `<cstdlib>` (Linux) -/

def SIGHUP : Int := 1
def SIGINT : Int := 2
def SIGQUIT : Int := 3
def SIGABRT : Int := 6
def SIGTERM : Int := 15
def SIGCHLD : Int := 17
def SIGCONT : Int := 18

def CLD_EXITED : Int := 1
def CLD_KILLED : Int := 2
def CLD_DUMPED : Int := 3
def CLD_TRAPPED : Int := 4
def CLD_STOPPED : Int := 5
def CLD_CONTINUED : Int := 6

def WNOHANG : Nat := 0x1
def WSTOPPED : Nat := 0x2
def WEXITED : Nat := 0x4
def WCONTINUED : Nat := 0x8
def WNOWAIT : Nat := 0x1000000

def EXIT_SUCCESS : Int := 0
def EXIT_FAILURE : Int := 1

/-! ## The operating system -/

/-- The fields of `siginfo_t` that the code reads after `waitid`. -/
structure siginfo_t where
  si_pid : Int
  si_signo : Int
  si_code : Int
  si_status : Int
  deriving DecidableEq, Repr

/-- The record read from the signal file descriptor; only `ssi_signo` is used. -/
structure signalfd_siginfo where
  ssi_signo : Nat
  deriving DecidableEq, Repr

/-- Modelled from the spec: `CheckSystemCall` is declared in `exception.hh`,
which is not among the sources.  A checked system call either reports failure,
in which case `CheckSystemCall` raises (`none`), or succeeds with a value
(`some`).  A kernel answers the checked calls of this file:

* `waitid pid options` is `waitid( P_PID, pid, &infop, options )` on a zeroed
  `infop`, yielding the filled-in record;
* `kill pid sig` is `kill( pid, sig )`, `true` on success;
* `stat_nlink` is `stat( "/proc/self/task", &my_stat )`, yielding `st_nlink`;
* `fork` is `fork()`, yielding the value returned in this process;
* `read_signal` is one wake-up of `poller_.poll( -1 )` on the signal file
  descriptor followed by `signal_fd_.read_signal()`; `none` means that no
  signal ever arrives, so the poll blocks for ever. -/
structure Kernel (σ : Type) where
  waitid : Int → Nat → σ → Option siginfo_t × σ
  kill : Int → Int → σ → Bool × σ
  stat_nlink : σ → Option Nat × σ
  fork : σ → Option Int × σ
  read_signal : σ → Option signalfd_siginfo × σ

/-- One answered `waitid` or `kill`, as recorded by `Kernel.logged`. -/
inductive Call where
  | waitid (pid : Int) (options : Nat) (result : Option siginfo_t)
  | kill (pid : Int) (sig : Int) (ok : Bool)
  deriving DecidableEq, Repr

/-- The same kernel, which also appends every `waitid` and `kill` it answers
to a log kept next to its state. -/
def Kernel.logged {σ : Type} (K : Kernel σ) : Kernel (σ × List Call) where
  waitid := fun pid options st =>
    let r := K.waitid pid options st.1
    (r.1, (r.2, st.2 ++ [Call.waitid pid options r.1]))
  kill := fun pid sig st =>
    let r := K.kill pid sig st.1
    (r.1, (r.2, st.2 ++ [Call.kill pid sig r.1]))
  stat_nlink := fun st => let r := K.stat_nlink st.1; (r.1, (r.2, st.2))
  fork := fun st => let r := K.fork st.1; (r.1, (r.2, st.2))
  read_signal := fun st => let r := K.read_signal st.1; (r.1, (r.2, st.2))

/-! ## Failures -/

/-- What can interrupt a method: a failed `assert` (the process aborts; no
handler can catch it) or a thrown exception (`runtime_error`, or the
`unix_error` of a failed checked system call). -/
inductive Failure where
  | assertion (condition : String)
  | runtime_error (what : String)
  | unix_error (attempt : String)
  deriving DecidableEq, Repr

/-- Whether the failure is a C++ exception, which `catch ( const exception & )`
handles, as opposed to a failed assertion. -/
def Failure.isException : Failure → Bool
  | .assertion _ => false
  | .runtime_error _ => true
  | .unix_error _ => true

/-! ## `ChildProcess` -/

/-- The data members of `ChildProcess`. -/
structure ChildProcess where
  name_ : String
  pid_ : Int
  running_ : Bool
  terminated_ : Bool
  exit_status_ : Int
  died_on_signal_ : Bool
  graceful_termination_signal_ : Int
  moved_away_ : Bool
  deriving DecidableEq, Repr

/-- The flags of the probe in `waitable`. -/
def waitable_options : Nat :=
  WEXITED ||| WSTOPPED ||| WCONTINUED ||| WNOHANG ||| WNOWAIT

/-- The flags of the call in `wait`. -/
def wait_options (nonblocking : Bool) : Nat :=
  WEXITED ||| WSTOPPED ||| WCONTINUED ||| (if nonblocking then WNOHANG else 0)

/-- `do_fork`: check that the process has a single task, then fork. -/
def do_fork {σ : Type} (K : Kernel σ) (s : σ) : Except Failure Int × σ :=
  match K.stat_nlink s with
  | (none, s1) => (.error (.unix_error "stat"), s1)
  | (some st_nlink, s1) =>
    if st_nlink ≠ 3 then
      (.error (.runtime_error "ChildProcess constructed in multi-threaded program"), s1)
    else
      match K.fork s1 with
      | (none, s2) => (.error (.unix_error "fork"), s2)
      | (some pid, s2) => (.ok pid, s2)

/-- The constructor, as seen by the calling process.  When `do_fork` returns
`0` this process is the new child: it runs the child procedure and `_exit`s, so
the constructor never returns there (`.ok none`).  Otherwise the parent holds
the new handle. -/
def ChildProcess.create {σ : Type} (K : Kernel σ) (name : String)
    (termination_signal : Int) (s : σ) : Except Failure (Option ChildProcess) × σ :=
  match do_fork K s with
  | (.error e, s1) => (.error e, s1)
  | (.ok pid, s1) =>
    if pid = 0 then (.ok none, s1)
    else
      (.ok (some { name_ := name, pid_ := pid, running_ := true, terminated_ := false,
                   exit_status_ := 0, died_on_signal_ := false,
                   graceful_termination_signal_ := termination_signal,
                   moved_away_ := false }), s1)

/-- `ChildProcess::waitable`: is the process in a waitable state? -/
def ChildProcess.waitable {σ : Type} (K : Kernel σ) (c : ChildProcess) (s : σ) :
    Except Failure Bool × σ :=
  if c.moved_away_ then (.error (.assertion "!moved_away_"), s)
  else if c.terminated_ then (.error (.assertion "!terminated_"), s)
  else
    match K.waitid c.pid_ waitable_options s with
    | (none, s1) => (.error (.unix_error "waitid"), s1)
    | (some infop, s1) =>
      if infop.si_pid = 0 then (.ok false, s1)
      else if infop.si_pid = c.pid_ then (.ok true, s1)
      else
        (.error (.runtime_error
          "waitid: unexpected value in siginfo_t si_pid field (not 0 or pid)"), s1)

/-- `ChildProcess::wait`: wait for the process to change state.  The handle in
the result is the object after the call; every `throw` precedes the first
assignment, so on failure the object is as it was. -/
def ChildProcess.wait {σ : Type} (K : Kernel σ) (nonblocking : Bool) (c : ChildProcess)
    (s : σ) : Except Failure ChildProcess × σ :=
  if c.moved_away_ then (.error (.assertion "!moved_away_"), s)
  else if c.terminated_ then (.error (.assertion "!terminated_"), s)
  else
    match K.waitid c.pid_ (wait_options nonblocking) s with
    | (none, s1) => (.error (.unix_error "waitid"), s1)
    | (some infop, s1) =>
      if nonblocking && decide (infop.si_pid = 0) then
        (.error (.runtime_error "nonblocking wait: process was not waitable"), s1)
      else if infop.si_pid ≠ c.pid_ then
        (.error (.runtime_error "waitid: unexpected value in siginfo_t si_pid field"), s1)
      else if infop.si_signo ≠ SIGCHLD then
        (.error (.runtime_error
          "waitid: unexpected value in siginfo_t si_signo field (not SIGCHLD)"), s1)
      else if infop.si_code = CLD_EXITED then
        (.ok { c with terminated_ := true, exit_status_ := infop.si_status }, s1)
      else if infop.si_code = CLD_KILLED ∨ infop.si_code = CLD_DUMPED then
        (.ok { c with terminated_ := true, exit_status_ := infop.si_status,
                      died_on_signal_ := true }, s1)
      else if infop.si_code = CLD_STOPPED then
        (.ok { c with running_ := false }, s1)
      else if infop.si_code = CLD_CONTINUED then
        (.ok { c with running_ := true }, s1)
      else
        (.error (.runtime_error "waitid: unexpected siginfo_t si_code"), s1)

/-- `ChildProcess::signal`: send a signal to the child process. -/
def ChildProcess.signal {σ : Type} (K : Kernel σ) (sig : Int) (c : ChildProcess) (s : σ) :
    Except Failure Unit × σ :=
  if c.moved_away_ then (.error (.assertion "!moved_away_"), s)
  else if !c.terminated_ then
    match K.kill c.pid_ sig s with
    | (false, s1) => (.error (.unix_error "kill"), s1)
    | (true, s1) => (.ok (), s1)
  else (.ok (), s)

/-- `ChildProcess::resume`: if the child process was suspended, resume it. -/
def ChildProcess.resume {σ : Type} (K : Kernel σ) (c : ChildProcess) (s : σ) :
    Except Failure Unit × σ :=
  if c.moved_away_ then (.error (.assertion "!moved_away_"), s)
  else if !c.running_ then c.signal K SIGCONT s
  else (.ok (), s)

/-- The move constructor: the new object and the source after the move.  The
member initialisers copy every field, then the body asserts that the source had
not been moved away and marks it. -/
def ChildProcess.move (other : ChildProcess) : Except Failure (ChildProcess × ChildProcess) :=
  let fresh : ChildProcess :=
    { name_ := other.name_, pid_ := other.pid_, running_ := other.running_,
      terminated_ := other.terminated_, exit_status_ := other.exit_status_,
      died_on_signal_ := other.died_on_signal_,
      graceful_termination_signal_ := other.graceful_termination_signal_,
      moved_away_ := other.moved_away_ }
  if other.moved_away_ then .error (.assertion "!other.moved_away_")
  else .ok (fresh, { other with moved_away_ := true })

/-- The `while ( !terminated_ )` loop of the destructor, run for at most `fuel`
rounds of resume, signal, wait.  The destructor calls `wait()` without an
argument; the default is declared in `child_process.hh`, which is not among the
sources, and the spec has this wait block.  The result is the object as the
loop leaves it together with the failure that interrupted the loop, if any;
`none` when `fuel` rounds did not end the loop. -/
def ChildProcess.terminate_loop {σ : Type} (K : Kernel σ) :
    Nat → ChildProcess → σ → Option (ChildProcess × Option Failure) × σ
  | 0, c, s => if c.terminated_ then (some (c, none), s) else (none, s)
  | fuel + 1, c, s =>
    if c.terminated_ then (some (c, none), s)
    else
      match c.resume K s with
      | (.error e, s1) => (some (c, some e), s1)
      | (.ok (), s1) =>
        match c.signal K c.graceful_termination_signal_ s1 with
        | (.error e, s2) => (some (c, some e), s2)
        | (.ok (), s2) =>
          match c.wait K false s2 with
          | (.error e, s3) => (some (c, some e), s3)
          | (.ok c1, s3) => ChildProcess.terminate_loop K fuel c1 s3

/-- How a destructor call ended: the object as the destructor leaves it, and
the exception that the `catch` clause handled and printed, if there was one. -/
structure Destroyed where
  handle : ChildProcess
  caught : Option Failure
  deriving DecidableEq, Repr

/-- The destructor `ChildProcess::~ChildProcess`.  `some (.ok d)`: destruction
completed; `some (.error e)`: `e` left the destructor; `none`: the loop was
still running after `fuel` rounds. -/
def ChildProcess.destroy {σ : Type} (K : Kernel σ) (fuel : Nat) (c : ChildProcess) (s : σ) :
    Option (Except Failure Destroyed) × σ :=
  if c.moved_away_ then (some (.ok { handle := c, caught := none }), s)
  else
    match c.terminate_loop K fuel s with
    | (none, s1) => (none, s1)
    | (some (c1, none), s1) => (some (.ok { handle := c1, caught := none }), s1)
    | (some (c1, some e), s1) =>
      if e.isException then (some (.ok { handle := c1, caught := some e }), s1)
      else (some (.error e), s1)

/-! ## `ProcessManager` -/

/-- The `ResultType` of the poller. -/
inductive ResultType where
  | Continue
  | Exit
  | Cancel
  deriving DecidableEq, Repr

/-- The `Result` that a poller callback returns. -/
structure Result where
  result : ResultType
  exit_status : Int
  deriving DecidableEq, Repr

/-- Modelled from the spec: the type of `child_processes_` is declared in
`child_process.hh`, which is not among the sources; the spec describes a
mapping from pid to owned handle with unique keys.  The table is the list of
its entries in iteration order. -/
structure ProcessManager where
  child_processes_ : List (Int × ChildProcess)
  deriving DecidableEq, Repr

/-- The `for` loop of `handle_signal` from the iterator position whose
remaining entries are given.  The result is `some r` for an early `return r`
and `none` when the loop reaches `end()`, next to the entries as the loop
leaves them.  Erasing an entry destroys a handle with `terminated_` set, whose
destructor skips its loop (`destroy_of_terminated`). -/
def scan_children {σ : Type} (K : Kernel σ) :
    List (Int × ChildProcess) → σ →
      (Except Failure (Option Result) × List (Int × ChildProcess)) × σ
  | [], s => ((.ok none, []), s)
  | (first, child) :: rest, s =>
    match child.waitable K s with
    | (.error e, s1) => ((.error e, (first, child) :: rest), s1)
    | (.ok false, s1) =>
      let r := scan_children K rest s1
      ((r.1.1, (first, child) :: r.1.2), r.2)
    | (.ok true, s1) =>
      match child.wait K true s1 with
      | (.error e, s2) => ((.error e, (first, child) :: rest), s2)
      | (.ok child1, s2) =>
        if child1.terminated_ then
          if child1.exit_status_ ≠ 0 then
            ((.ok (some { result := .Exit, exit_status := EXIT_FAILURE }),
              (first, child1) :: rest), s2)
          else scan_children K rest s2
        else
          if !child1.running_ then
            ((.ok (some { result := .Exit, exit_status := EXIT_FAILURE }),
              (first, child1) :: rest), s2)
          else
            let r := scan_children K rest s2
            ((r.1.1, (first, child1) :: r.1.2), r.2)

/-- `ProcessManager::handle_signal`. -/
def ProcessManager.handle_signal {σ : Type} (K : Kernel σ) (sig : signalfd_siginfo)
    (pm : ProcessManager) (s : σ) : (Except Failure Result × ProcessManager) × σ :=
  if (sig.ssi_signo : Int) = SIGCHLD then
    if pm.child_processes_.isEmpty then
      ((.ok { result := .Exit, exit_status := EXIT_FAILURE }, pm), s)
    else
      match scan_children K pm.child_processes_ s with
      | ((.error e, entries), s1) => ((.error e, { child_processes_ := entries }), s1)
      | ((.ok (some r), entries), s1) => ((.ok r, { child_processes_ := entries }), s1)
      | ((.ok none, entries), s1) =>
        ((.ok { result := .Continue, exit_status := EXIT_SUCCESS },
          { child_processes_ := entries }), s1)
  else if (sig.ssi_signo : Int) = SIGABRT ∨ (sig.ssi_signo : Int) = SIGHUP
      ∨ (sig.ssi_signo : Int) = SIGINT ∨ (sig.ssi_signo : Int) = SIGQUIT
      ∨ (sig.ssi_signo : Int) = SIGTERM then
    ((.ok { result := .Exit, exit_status := EXIT_FAILURE }, pm), s)
  else
    ((.ok { result := .Exit, exit_status := EXIT_FAILURE }, pm), s)

/-- How a call of `ProcessManager::wait` or `run` ended. -/
inductive Outcome (α : Type) where
  /-- The call returned the value. -/
  | returned (value : α)
  /-- The failure left the call. -/
  | raised (e : Failure)
  /-- The call never returns: the poll blocks for ever, or this process is the
  forked child, which exits inside the constructor. -/
  | never
  /-- The model stopped before the call ended. -/
  | unfinished
  deriving DecidableEq, Repr

/-- Modelled from the spec: `Poller::poll` is declared in `poller.hh`, which
is not among the sources.  With the single action that the constructor
registers and an infinite timeout, one `poll( -1 )` waits until the signal
file descriptor is readable, runs the callback
`handle_signal( signal_fd_.read_signal() )`, and reports `Exit` with the
callback's status when the callback asked to exit; a callback failure leaves
`poll`.  `ProcessManager::wait` repeats this until an `Exit`; `fuel` bounds the
number of polls. -/
def ProcessManager.wait {σ : Type} (K : Kernel σ) :
    Nat → ProcessManager → σ → (Outcome Int × ProcessManager) × σ
  | 0, pm, s => ((.unfinished, pm), s)
  | fuel + 1, pm, s =>
    match K.read_signal s with
    | (none, s1) => ((.never, pm), s1)
    | (some sig, s1) =>
      match pm.handle_signal K sig s1 with
      | ((.error e, pm1), s2) => ((.raised e, pm1), s2)
      | ((.ok ret, pm1), s2) =>
        if ret.result = .Exit then ((.returned ret.exit_status, pm1), s2)
        else ProcessManager.wait K fuel pm1 s2

/-- The effect of `emplace( key, move( child ) )` on the table: an entry is
added unless the key is already present, in which case the table is unchanged.
The new entry is put at its place in key order, as in a `std::map`; the
container type is declared in `child_process.hh`, not among the sources, and
the theorems about `run` start from an empty table, where the place plays no
part. -/
def emplace (key : Int) (node : ChildProcess) :
    List (Int × ChildProcess) → List (Int × ChildProcess)
  | [] => [(key, node)]
  | (k, c) :: rest =>
    if key < k then (key, node) :: (k, c) :: rest
    else if key = k then (k, c) :: rest
    else (k, c) :: emplace key node rest

/-- `ProcessManager::run_as_child`.  The default `termination_signal` of the
`ChildProcess` constructor is declared in `child_process.hh`, not among the
sources, and is a parameter here.  The new handle is move-constructed into the
table node; when the key is already present the node is destroyed again, which
runs the destructor of the handle it holds (`fuel` bounds that destructor).
The local `child` is destroyed as a moved-away object, which does nothing. -/
def ProcessManager.run_as_child {σ : Type} (K : Kernel σ) (termination_signal : Int)
    (fuel : Nat) (program : String) (pm : ProcessManager) (s : σ) :
    (Outcome Unit × ProcessManager) × σ :=
  match ChildProcess.create K program termination_signal s with
  | (.error e, s1) => ((.raised e, pm), s1)
  | (.ok none, s1) => ((.never, pm), s1)
  | (.ok (some child), s1) =>
    match child.move with
    | .error e => ((.raised e, pm), s1)
    | .ok (node, _) =>
      if pm.child_processes_.any (fun entry => entry.1 = child.pid_) then
        match node.destroy K fuel s1 with
        | (none, s2) => ((.unfinished, pm), s2)
        | (some (.error e), s2) => ((.raised e, pm), s2)
        | (some (.ok _), s2) => ((.returned (), pm), s2)
      else
        ((.returned (), { child_processes_ := emplace child.pid_ node pm.child_processes_ }), s1)

/-- `ProcessManager::run`: `run_as_child` followed by `wait`. -/
def ProcessManager.run {σ : Type} (K : Kernel σ) (termination_signal : Int) (fuel : Nat)
    (program : String) (pm : ProcessManager) (s : σ) : (Outcome Int × ProcessManager) × σ :=
  match pm.run_as_child K termination_signal fuel program s with
  | ((.returned (), pm1), s1) => ProcessManager.wait K fuel pm1 s1
  | ((.raised e, pm1), s1) => ((.raised e, pm1), s1)
  | ((.never, pm1), s1) => ((.never, pm1), s1)
  | ((.unfinished, pm1), s1) => ((.unfinished, pm1), s1)

/-! ## Vocabulary of the theorems -/

/-- The handle operations that a sequence of uses is made of. -/
inductive Operation where
  | waitable
  | wait (nonblocking : Bool)
  | resume
  | signal (sig : Int)
  deriving DecidableEq, Repr

/-- The object and the kernel state after one operation.  `waitable`, `resume`
and `signal` assign to no data member; `wait` leaves the object it returns, and
the unchanged object when it fails. -/
def Operation.apply {σ : Type} (K : Kernel σ) (op : Operation) (c : ChildProcess) (s : σ) :
    ChildProcess × σ :=
  match op with
  | .waitable => (c, (c.waitable K s).2)
  | .wait nonblocking =>
    match c.wait K nonblocking s with
    | (.ok c1, s1) => (c1, s1)
    | (.error _, s1) => (c, s1)
  | .resume => (c, (c.resume K s).2)
  | .signal sig => (c, (c.signal K sig s).2)

/-- The object and the kernel state after a sequence of operations. -/
def Operation.applyAll {σ : Type} (K : Kernel σ) :
    List Operation → ChildProcess → σ → ChildProcess × σ
  | [], c, s => (c, s)
  | op :: ops, c, s =>
    let r := op.apply K c s
    Operation.applyAll K ops r.1 r.2

/-- A kernel without state whose `waitid` answers are a function of the pid
and the flags, whose `kill` succeeds or fails as told, and which delivers no
signal. -/
def oracle (answer : Int → Nat → Option siginfo_t) (kill_ok : Bool) : Kernel Unit where
  waitid := fun pid options s => (answer pid options, s)
  kill := fun _ _ s => (kill_ok, s)
  stat_nlink := fun s => (some 3, s)
  fork := fun s => (none, s)
  read_signal := fun s => (none, s)

/-- A handle as the constructor leaves it in the parent. -/
def fresh_child (pid : Int) : ChildProcess :=
  { name_ := "child", pid_ := pid, running_ := true, terminated_ := false,
    exit_status_ := 0, died_on_signal_ := false,
    graceful_termination_signal_ := SIGTERM, moved_away_ := false }

/-- The `waitid` record of a state change of `pid`. -/
def change (pid code status : Int) : siginfo_t :=
  { si_pid := pid, si_signo := SIGCHLD, si_code := code, si_status := status }

/-- The invariant of a tracked handle: not terminated, running, not moved
away. -/
def ChildProcess.live (c : ChildProcess) : Prop :=
  c.terminated_ = false ∧ c.running_ = true ∧ c.moved_away_ = false

/-- The calls that one `handle_signal` makes, in order: the log that the
logging kernel has gathered when the callback ends. -/
def ProcessManager.trace {σ : Type} (K : Kernel σ) (sig : signalfd_siginfo)
    (pm : ProcessManager) (s : σ) : List Call :=
  (pm.handle_signal K.logged sig (s, [])).2.2

/-- The calls that the scan of `handle_signal` makes from a table position,
in order. -/
def scan_trace {σ : Type} (K : Kernel σ) (entries : List (Int × ChildProcess)) (s : σ) :
    List Call :=
  (scan_children K.logged entries (s, [])).2.2

/-- A consumed state change that ends the supervision loop: a normal exit with
a non-zero status, a death by signal (`si_status` is then the signal number,
which is not `0`), or a stop. -/
def fatal_change (infop : siginfo_t) : Prop :=
  (infop.si_code = CLD_EXITED ∧ infop.si_status ≠ 0)
  ∨ ((infop.si_code = CLD_KILLED ∨ infop.si_code = CLD_DUMPED) ∧ infop.si_status ≠ 0)
  ∨ infop.si_code = CLD_STOPPED

/-- The pids on which a non-blocking `wait` was called, in call order. -/
def waited : List Call → List Int
  | [] => []
  | Call.waitid pid options _ :: calls =>
    if options = wait_options true then pid :: waited calls else waited calls
  | Call.kill _ _ _ :: calls => waited calls

/-- The `SIGCHLD` record. -/
def sigchld : signalfd_siginfo := { ssi_signo := 17 }

/-- A kernel in which every child has exited with status 7 and is waiting to
be reaped. -/
def all_exited_7 : Kernel Unit := oracle (fun pid _ => some (change pid CLD_EXITED 7)) true

/-- A table of two freshly constructed children, pids 5 and 6. -/
def two_children : ProcessManager :=
  { child_processes_ := [(5, fresh_child 5), (6, fresh_child 6)] }

/-- A kernel in which every child has exited with status 0 and is waiting to
be reaped. -/
def all_exited_0 : Kernel Unit := oracle (fun pid _ => some (change pid CLD_EXITED 0)) true

/-- A kernel in which child 5 has exited with status 0 and no other child has
changed state: for those `waitid` leaves the zeroed record as it is. -/
def only_5_exited_0 : Kernel Unit :=
  oracle (fun pid _ =>
    if pid = 5 then some (change 5 CLD_EXITED 0)
    else some { si_pid := 0, si_signo := 0, si_code := 0, si_status := 0 }) true

/-- The answers to the blocking `wait`s in a log, in call order. -/
def blocking_waits : List Call → List (Option siginfo_t)
  | [] => []
  | Call.waitid _ options r :: calls =>
    if options = wait_options false then r :: blocking_waits calls else blocking_waits calls
  | Call.kill _ _ _ :: calls => blocking_waits calls

/-- A kernel whose state is the list of answers that the coming `waitid` calls
get, one after the other (a failure once the list is used up), and whose
`kill` succeeds. -/
def scripted : Kernel (List (Option siginfo_t)) where
  waitid := fun _ _ script =>
    match script with
    | [] => (none, [])
    | answer :: later => (answer, later)
  kill := fun _ _ script => (true, script)
  stat_nlink := fun script => (some 3, script)
  fork := fun script => (none, script)
  read_signal := fun script => (none, script)

/-- A kernel whose `waitid` fails. -/
def waitid_fails : Kernel Unit := oracle (fun _ _ => none) true

/-- The answers to three blocking `wait`s on child 5: it is found stopped,
then continued, then killed by signal 15. -/
def stop_continue_kill : List (Option siginfo_t) :=
  [some (change 5 CLD_STOPPED 19), some (change 5 CLD_CONTINUED 18),
   some (change 5 CLD_KILLED 15)]

/-- A kernel for one spawned child: `fork` returns pid 5 to the parent, the
child has exited with status 0 and is waiting to be reaped, and the state is
the list of signals still to be delivered, after which none ever arrives. -/
def one_child_exits_0 : Kernel (List signalfd_siginfo) where
  waitid := fun pid _ signals => (some (change pid CLD_EXITED 0), signals)
  kill := fun _ _ signals => (true, signals)
  stat_nlink := fun signals => (some 3, signals)
  fork := fun signals => (some 5, signals)
  read_signal := fun signals =>
    match signals with
    | [] => (none, [])
    | sig :: later => (some sig, later)

/-- The assignments of the `switch` in `wait` for a state change: the handle
after the outcome has been applied.  For a `si_code` that the switch does not
handle nothing is assigned. -/
def ChildProcess.after_change (c : ChildProcess) (infop : siginfo_t) : ChildProcess :=
  if infop.si_code = CLD_EXITED then
    { c with terminated_ := true, exit_status_ := infop.si_status }
  else if infop.si_code = CLD_KILLED ∨ infop.si_code = CLD_DUMPED then
    { c with terminated_ := true, exit_status_ := infop.si_status, died_on_signal_ := true }
  else if infop.si_code = CLD_STOPPED then { c with running_ := false }
  else if infop.si_code = CLD_CONTINUED then { c with running_ := true }
  else c

/-- A `waitid` record that reports a state change of `pid`: it names the pid,
carries `SIGCHLD`, and its `si_code` is one of the five kinds of change. -/
def valid_change (pid : Int) (infop : siginfo_t) : Prop :=
  infop.si_pid = pid ∧ infop.si_signo = SIGCHLD
    ∧ (infop.si_code = CLD_EXITED ∨ infop.si_code = CLD_KILLED ∨ infop.si_code = CLD_DUMPED
        ∨ infop.si_code = CLD_STOPPED ∨ infop.si_code = CLD_CONTINUED)

/-- The pids that were probed, in call order. -/
def probed : List Call → List Int
  | [] => []
  | Call.waitid pid options _ :: calls =>
    if options = waitable_options then pid :: probed calls else probed calls
  | Call.kill _ _ _ :: calls => probed calls

/-- The records that the non-blocking `wait`s consumed, in call order. -/
def consumed : List Call → List siginfo_t
  | [] => []
  | Call.waitid _ options (some infop) :: calls =>
    if options = wait_options true then infop :: consumed calls else consumed calls
  | Call.waitid _ _ none :: calls => consumed calls
  | Call.kill _ _ _ :: calls => consumed calls

/-- The scanned entries with the consumed changes applied to their handles, one
change for each entry. -/
def applied (scanned : List (Int × ChildProcess)) (changes : List siginfo_t) :
    List (Int × ChildProcess) :=
  List.zipWith (fun e infop => (e.1, e.2.after_change infop)) scanned changes

/-- Whether the scan keeps an entry it has waited on: it erases the handles
that terminated with exit status 0 and keeps the others. -/
def kept (e : Int × ChildProcess) : Bool :=
  !(e.2.terminated_ && decide (e.2.exit_status_ = 0))

/-- The signal that `resume` sends in a round of the destructor: `SIGCONT` if
the child is stopped, nothing otherwise. -/
def resume_sends (c : ChildProcess) : List Call :=
  if c.running_ then [] else [Call.kill c.pid_ SIGCONT true]

/-- The signals of one round of the destructor, both delivered: the resume if
the child is stopped, then the graceful termination signal. -/
def round_sends (c : ChildProcess) : List Call :=
  resume_sends c ++ [Call.kill c.pid_ c.graceful_termination_signal_ true]

/-- The calls of the destructor's protocol for a handle and the state changes
that its blocking waits report, one round for each: resume if stopped, send the
graceful termination signal, wait blocking; the next round starts from the
handle with the change applied. -/
def rounds : ChildProcess → List siginfo_t → List Call
  | _, [] => []
  | c, infop :: later =>
    round_sends c ++
      Call.waitid c.pid_ (wait_options false) (some infop) :: rounds (c.after_change infop) later

/-- The calls of a round that an exception cut short: the `SIGCONT` of the
resume was not delivered; or the graceful termination signal was not; or both
were sent and the blocking `waitid` failed or gave no valid state change. -/
def interrupted_round (c : ChildProcess) (calls : List Call) : Prop :=
  (c.running_ = false ∧ calls = [Call.kill c.pid_ SIGCONT false])
  ∨ calls = resume_sends c ++ [Call.kill c.pid_ c.graceful_termination_signal_ false]
  ∨ ∃ answer, calls = round_sends c ++ [Call.waitid c.pid_ (wait_options false) answer]
      ∧ ∀ infop, answer = some infop → ¬valid_change c.pid_ infop

/-! ## `ChildProcess`: construction, `wait`, move -/

/-- A handle that the constructor returns has a pid other than `0`, is running,
not terminated, has not died on a signal and is not moved away. -/
theorem create_spec {σ : Type} (K : Kernel σ) (name : String) (sig : Int) (s s1 : σ)
    (c : ChildProcess) (h : ChildProcess.create K name sig s = (.ok (some c), s1)) :
    c.pid_ ≠ 0 ∧ c.running_ = true ∧ c.terminated_ = false ∧ c.died_on_signal_ = false
      ∧ c.moved_away_ = false ∧ c.name_ = name ∧ c.graceful_termination_signal_ = sig := by
  unfold ChildProcess.create at h
  split at h
  · simp at h
  · split at h
    · simp at h
    · simp only [Prod.mk.injEq, Except.ok.injEq, Option.some.injEq] at h
      obtain ⟨rfl, -⟩ := h
      simp_all

/-- C1: on a handle that is neither terminated nor moved away (and whose pid is
not `0`, as for every constructed handle), a `wait` whose `waitid` answer names
the handle's pid with `si_signo = SIGCHLD` follows the table: `CLD_EXITED`
sets `terminated_` and `exit_status_`; `CLD_KILLED` and `CLD_DUMPED` set
`terminated_`, `exit_status_` and `died_on_signal_`; `CLD_STOPPED` clears
`running_`; `CLD_CONTINUED` sets `running_`; nothing else changes; any other
`si_code` raises. -/
theorem wait_follows_table {σ : Type} (K : Kernel σ) (nonblocking : Bool) (c : ChildProcess)
    (s s1 : σ) (infop : siginfo_t)
    (hmoved : c.moved_away_ = false) (hterm : c.terminated_ = false) (hpid : c.pid_ ≠ 0)
    (hcall : K.waitid c.pid_ (wait_options nonblocking) s = (some infop, s1))
    (hsi_pid : infop.si_pid = c.pid_) (hsigno : infop.si_signo = SIGCHLD) :
    (infop.si_code = CLD_EXITED →
      c.wait K nonblocking s
        = (.ok { c with terminated_ := true, exit_status_ := infop.si_status }, s1)) ∧
    (infop.si_code = CLD_KILLED ∨ infop.si_code = CLD_DUMPED →
      c.wait K nonblocking s
        = (.ok { c with terminated_ := true, exit_status_ := infop.si_status,
                        died_on_signal_ := true }, s1)) ∧
    (infop.si_code = CLD_STOPPED →
      c.wait K nonblocking s = (.ok { c with running_ := false }, s1)) ∧
    (infop.si_code = CLD_CONTINUED →
      c.wait K nonblocking s = (.ok { c with running_ := true }, s1)) ∧
    (infop.si_code ≠ CLD_EXITED → infop.si_code ≠ CLD_KILLED → infop.si_code ≠ CLD_DUMPED →
      infop.si_code ≠ CLD_STOPPED → infop.si_code ≠ CLD_CONTINUED →
      c.wait K nonblocking s
        = (.error (.runtime_error "waitid: unexpected siginfo_t si_code"), s1)) := by
  have hne : infop.si_pid ≠ 0 := by rw [hsi_pid]; exact hpid
  refine ⟨?_, ?_, ?_, ?_, ?_⟩
  · intro h
    simp [ChildProcess.wait, hmoved, hterm, hcall, hne, hpid, hsi_pid, hsigno, h]
  · intro h
    rcases h with h | h <;>
      simp [ChildProcess.wait, hmoved, hterm, hcall, hne, hpid, hsi_pid, hsigno, h,
        CLD_EXITED, CLD_KILLED, CLD_DUMPED]
  · intro h
    simp [ChildProcess.wait, hmoved, hterm, hcall, hne, hpid, hsi_pid, hsigno, h,
      CLD_EXITED, CLD_KILLED, CLD_DUMPED, CLD_STOPPED]
  · intro h
    simp [ChildProcess.wait, hmoved, hterm, hcall, hne, hpid, hsi_pid, hsigno, h,
      CLD_EXITED, CLD_KILLED, CLD_DUMPED, CLD_STOPPED, CLD_CONTINUED]
  · intro h1 h2 h3 h4 h5
    simp [ChildProcess.wait, hmoved, hterm, hcall, hne, hpid, hsi_pid, hsigno, h1, h2, h3, h4, h5]

/-- The table of C1 at a child of pid 5 that a non-blocking `wait` finds killed
by signal 9. -/
theorem wait_follows_table_witness :
    (fresh_child 5).wait (oracle (fun pid _ => some (change pid CLD_KILLED 9)) true) true ()
      = (.ok { fresh_child 5 with terminated_ := true, exit_status_ := 9,
                                  died_on_signal_ := true }, ()) :=
  (wait_follows_table (oracle (fun pid _ => some (change pid CLD_KILLED 9)) true) true
    (fresh_child 5) () () (change 5 CLD_KILLED 9) rfl rfl (by decide) rfl rfl rfl).2.1
    (Or.inl rfl)

/-- C9: moving from a handle that is not moved away yields a new object with
the source's name, pid, running, terminated, exit status, died-on-signal flag
and graceful termination signal and with `moved_away_` false, and leaves the
source with `moved_away_` set and its other fields as they were, so exactly one
of the two is not moved away; moving from a moved-away handle fails the
assertion. -/
theorem move_transfers_ownership (other : ChildProcess) :
    (other.moved_away_ = false →
      ∃ target source, other.move = .ok (target, source)
        ∧ target.name_ = other.name_ ∧ target.pid_ = other.pid_
        ∧ target.running_ = other.running_ ∧ target.terminated_ = other.terminated_
        ∧ target.exit_status_ = other.exit_status_
        ∧ target.died_on_signal_ = other.died_on_signal_
        ∧ target.graceful_termination_signal_ = other.graceful_termination_signal_
        ∧ target.moved_away_ = false
        ∧ source = { other with moved_away_ := true }
        ∧ source.moved_away_ = true) ∧
    (other.moved_away_ = true → other.move = .error (.assertion "!other.moved_away_")) := by
  constructor
  · intro h
    refine ⟨{ other with moved_away_ := other.moved_away_ }, { other with moved_away_ := true },
      by simp [ChildProcess.move, h], rfl, rfl, rfl, rfl, rfl, rfl, rfl, h, rfl, rfl⟩
  · intro h
    simp [ChildProcess.move, h]

/-- C9 at a freshly constructed handle of pid 5, and at the source it leaves
behind. -/
theorem move_transfers_ownership_witness :
    (∃ target source, (fresh_child 5).move = .ok (target, source)
        ∧ target.pid_ = 5 ∧ target.moved_away_ = false ∧ source.moved_away_ = true)
      ∧ ({ fresh_child 5 with moved_away_ := true } : ChildProcess).move
          = .error (.assertion "!other.moved_away_") := by
  constructor
  · obtain ⟨target, source, h, -, hp, -, -, -, -, -, hm, -, hs⟩ :=
      (move_transfers_ownership (fresh_child 5)).1 rfl
    exact ⟨target, source, h, hp, hm, hs⟩
  · exact (move_transfers_ownership { fresh_child 5 with moved_away_ := true }).2 rfl

/-- No operation assigns to a terminated handle. -/
theorem apply_of_terminated {σ : Type} (K : Kernel σ) (op : Operation) (c : ChildProcess)
    (s : σ) (h : c.terminated_ = true) : (op.apply K c s).1 = c := by
  cases op with
  | waitable => rfl
  | wait nonblocking =>
    simp only [Operation.apply, ChildProcess.wait, h]
    by_cases hm : c.moved_away_ = true <;> simp [hm]
  | resume => rfl
  | signal sig => rfl

/-- No sequence of operations assigns to a terminated handle. -/
theorem applyAll_of_terminated {σ : Type} (K : Kernel σ) (ops : List Operation)
    (c : ChildProcess) (s : σ) (h : c.terminated_ = true) :
    (Operation.applyAll K ops c s).1 = c := by
  induction ops generalizing s with
  | nil => rfl
  | cons op ops ih =>
    simp only [Operation.applyAll]
    rw [apply_of_terminated K op c s h]
    exact ih _

/-- Running two sequences one after the other. -/
theorem applyAll_append {σ : Type} (K : Kernel σ) (before after : List Operation)
    (c : ChildProcess) (s : σ) :
    Operation.applyAll K (before ++ after) c s
      = Operation.applyAll K after (Operation.applyAll K before c s).1
          (Operation.applyAll K before c s).2 := by
  induction before generalizing c s with
  | nil => rfl
  | cons op ops ih => simp only [List.cons_append, Operation.applyAll]; exact ih _ _

/-- C7: once a sequence of operations has left a handle terminated, every
further sequence of `waitable`, `wait`, `resume` and `signal` leaves it
terminated, with `running_`, `exit_status_` and `died_on_signal_` (indeed the
whole object) as they were at that point; each single operation on a terminated
handle leaves the object as it was, `waitable` and `wait` failing their
assertion and `signal` sending nothing. -/
theorem terminated_is_terminal {σ : Type} (K : Kernel σ) (c : ChildProcess) (s : σ)
    (before after : List Operation)
    (h : (Operation.applyAll K before c s).1.terminated_ = true) :
    (Operation.applyAll K (before ++ after) c s).1.terminated_ = true
    ∧ (Operation.applyAll K (before ++ after) c s).1.running_
        = (Operation.applyAll K before c s).1.running_
    ∧ (Operation.applyAll K (before ++ after) c s).1.exit_status_
        = (Operation.applyAll K before c s).1.exit_status_
    ∧ (Operation.applyAll K (before ++ after) c s).1.died_on_signal_
        = (Operation.applyAll K before c s).1.died_on_signal_
    ∧ (Operation.applyAll K (before ++ after) c s).1 = (Operation.applyAll K before c s).1
    ∧ (∀ (t : σ) (d : ChildProcess), d.terminated_ = true → d.moved_away_ = false →
        d.waitable K t = (.error (.assertion "!terminated_"), t)
        ∧ (∀ nonblocking, d.wait K nonblocking t = (.error (.assertion "!terminated_"), t))
        ∧ d.resume K t = (.ok (), t)
        ∧ (∀ sig, d.signal K sig t = (.ok (), t))) := by
  have key := applyAll_of_terminated K after _ (Operation.applyAll K before c s).2 h
  rw [← applyAll_append] at key
  refine ⟨by rw [key]; exact h, by rw [key], by rw [key], by rw [key], key, ?_⟩
  intro t d hd hm
  refine ⟨by simp [ChildProcess.waitable, hd, hm], fun nb => by simp [ChildProcess.wait, hd, hm],
    ?_, fun sig => by simp [ChildProcess.signal, hd, hm]⟩
  by_cases hr : d.running_ = true <;> simp [ChildProcess.resume, ChildProcess.signal, hd, hm, hr]

/-- C7 at a child of pid 5 that a blocking `wait` finds exited with status 3:
a further stop report, resume and signal change nothing. -/
theorem terminated_is_terminal_witness :
    (Operation.applyAll (oracle (fun pid _ => some (change pid CLD_EXITED 3)) true)
      ([Operation.wait false] ++ [Operation.wait true, Operation.resume, Operation.signal 9])
      (fresh_child 5) ()).1 = { fresh_child 5 with terminated_ := true, exit_status_ := 3 } :=
  ((terminated_is_terminal (oracle (fun pid _ => some (change pid CLD_EXITED 3)) true)
    (fresh_child 5) () [Operation.wait false]
    [Operation.wait true, Operation.resume, Operation.signal 9] rfl).2.2.2.2.1).trans rfl

/-- Without `SIGCHLD`, or without tracked children, `handle_signal` returns
`Exit` with `EXIT_FAILURE` and touches neither the table nor the kernel. -/
theorem handle_signal_without_scan {σ : Type} (K : Kernel σ) (sig : signalfd_siginfo)
    (pm : ProcessManager) (s : σ)
    (h : (sig.ssi_signo : Int) ≠ SIGCHLD ∨ pm.child_processes_ = []) :
    pm.handle_signal K sig s
      = ((.ok { result := .Exit, exit_status := EXIT_FAILURE }, pm), s) := by
  unfold ProcessManager.handle_signal
  by_cases hs : (sig.ssi_signo : Int) = SIGCHLD
  · rcases h with h | h
    · exact absurd hs h
    · simp [hs, h]
  · simp only [hs, if_false]
    split <;> rfl

/-- C8: for a signal other than `SIGCHLD` (each of `SIGABRT`, `SIGHUP`,
`SIGINT`, `SIGQUIT`, `SIGTERM` and any other number), and for `SIGCHLD` with an
empty table, `handle_signal` returns `Exit` with the non-zero status
`EXIT_FAILURE`, leaves the table and the kernel state as they were and, over a
logging kernel, adds no call to the log; so it returns `Continue` only for
`SIGCHLD` with a non-empty table. -/
theorem handle_signal_exit_without_scan {σ : Type} (K : Kernel σ) (sig : signalfd_siginfo)
    (pm : ProcessManager) (s : σ) :
    (((sig.ssi_signo : Int) ≠ SIGCHLD ∨ pm.child_processes_ = []) →
      pm.handle_signal K sig s
          = ((.ok { result := .Exit, exit_status := EXIT_FAILURE }, pm), s)
        ∧ ∀ log, pm.handle_signal K.logged sig (s, log)
          = ((.ok { result := .Exit, exit_status := EXIT_FAILURE }, pm), (s, log)))
    ∧ EXIT_FAILURE ≠ 0
    ∧ (∀ r, (pm.handle_signal K sig s).1.1 = .ok r → r.result = .Continue →
        (sig.ssi_signo : Int) = SIGCHLD ∧ pm.child_processes_ ≠ []) := by
  have main : ∀ {τ : Type} (L : Kernel τ) (t : τ),
      ((sig.ssi_signo : Int) ≠ SIGCHLD ∨ pm.child_processes_ = []) →
      pm.handle_signal L sig t
        = ((.ok { result := .Exit, exit_status := EXIT_FAILURE }, pm), t) :=
    fun L t h => handle_signal_without_scan L sig pm t h
  refine ⟨fun h => ⟨main K s h, fun log => main K.logged (s, log) h⟩, by decide, ?_⟩
  intro r hr hc
  by_contra hcon
  have h : (sig.ssi_signo : Int) ≠ SIGCHLD ∨ pm.child_processes_ = [] := by
    by_cases hs : (sig.ssi_signo : Int) = SIGCHLD
    · right
      by_contra hne
      exact hcon ⟨hs, hne⟩
    · exact Or.inl hs
  rw [main K s h] at hr
  simp only [Except.ok.injEq] at hr
  rw [← hr] at hc
  exact absurd hc (by decide)

/-- C8 at `SIGTERM` with one tracked child: `Exit`, nothing logged. -/
theorem handle_signal_exit_without_scan_witness :
    ProcessManager.handle_signal (oracle (fun pid _ => some (change pid CLD_EXITED 0)) true).logged
        { ssi_signo := 15 } { child_processes_ := [(5, fresh_child 5)] } ((), [])
      = ((.ok { result := .Exit, exit_status := EXIT_FAILURE },
          { child_processes_ := [(5, fresh_child 5)] }), ((), [])) :=
  ((handle_signal_exit_without_scan (oracle (fun pid _ => some (change pid CLD_EXITED 0)) true)
    { ssi_signo := 15 } { child_processes_ := [(5, fresh_child 5)] } ()).1
      (Or.inl (by decide))).2 []

/-! ## The scan of `handle_signal` -/

/-- The assertions of `waitable` hold on a handle that is neither moved away
nor terminated. -/
theorem waitable_no_assertion {σ : Type} (K : Kernel σ) (c : ChildProcess) (s s1 : σ)
    (msg : String) (hm : c.moved_away_ = false) (ht : c.terminated_ = false) :
    c.waitable K s ≠ (.error (.assertion msg), s1) := by
  simp only [ChildProcess.waitable, hm, ht, Bool.false_eq_true, if_false]
  rcases K.waitid c.pid_ waitable_options s with ⟨a, s2⟩
  cases a with
  | none => simp
  | some infop =>
    simp only
    repeat' split
    all_goals simp

/-- What a successful `wait` leaves: `moved_away_` as it was, and either a
terminated handle or one whose `terminated_` is as before. -/
theorem wait_ok_frame {σ : Type} (K : Kernel σ) (nonblocking : Bool) (c c1 : ChildProcess)
    (s s1 : σ) (h : c.wait K nonblocking s = (.ok c1, s1)) :
    c.moved_away_ = false ∧ c.terminated_ = false ∧ c1.moved_away_ = false
      ∧ c1.pid_ = c.pid_ ∧ c1.name_ = c.name_
      ∧ c1.graceful_termination_signal_ = c.graceful_termination_signal_ := by
  unfold ChildProcess.wait at h
  split at h
  · simp at h
  · split at h
    · simp at h
    · rename_i hm ht
      split at h
      · simp at h
      · repeat' split at h
        all_goals first
          | (simp at h; done)
          | (simp only [Prod.mk.injEq, Except.ok.injEq] at h
             obtain ⟨rfl, -⟩ := h
             simp_all)

/-- The assertions of `wait` hold on a handle that is neither moved away nor
terminated. -/
theorem wait_no_assertion {σ : Type} (K : Kernel σ) (nonblocking : Bool) (c : ChildProcess)
    (s s1 : σ) (msg : String) (hm : c.moved_away_ = false) (ht : c.terminated_ = false) :
    c.wait K nonblocking s ≠ (.error (.assertion msg), s1) := by
  simp only [ChildProcess.wait, hm, ht, Bool.false_eq_true, if_false]
  rcases K.waitid c.pid_ (wait_options nonblocking) s with ⟨a, s2⟩
  cases a with
  | none => simp
  | some infop =>
    simp only
    repeat' split
    all_goals simp

/-- The scan over live handles fails no assertion, and when it reaches the end
of the table every entry it leaves is live. -/
theorem scan_children_live {σ : Type} (K : Kernel σ) (entries : List (Int × ChildProcess)) :
    ∀ s : σ, (∀ e ∈ entries, e.2.live) →
      (∀ msg, (scan_children K entries s).1.1 ≠ .error (.assertion msg))
      ∧ ((scan_children K entries s).1.1 = .ok none →
          ∀ e ∈ (scan_children K entries s).1.2, e.2.live) := by
  induction entries with
  | nil =>
    intro s _
    simp [scan_children]
  | cons entry rest ih =>
    intro s h
    obtain ⟨first, child⟩ := entry
    have hc : child.live := h (first, child) (List.mem_cons_self _ _)
    have hrest : ∀ e ∈ rest, e.2.live := fun e he => h e (List.mem_cons_of_mem _ he)
    obtain ⟨ht, hr, hm⟩ := hc
    rw [scan_children]
    split
    · rename_i e s1 hw
      refine ⟨?_, by simp⟩
      intro msg hmsg
      simp only [Except.error.injEq] at hmsg
      subst hmsg
      exact waitable_no_assertion K child s s1 msg hm ht hw
    · rename_i s1 hw
      obtain ⟨ih1, ih2⟩ := ih s1 hrest
      refine ⟨ih1, ?_⟩
      intro hnone e he
      rcases List.mem_cons.1 he with rfl | he
      · exact ⟨ht, hr, hm⟩
      · exact ih2 hnone e he
    · rename_i s1 hw
      split
      · rename_i e s2 hwait
        refine ⟨?_, by simp⟩
        intro msg hmsg
        simp only [Except.error.injEq] at hmsg
        subst hmsg
        exact wait_no_assertion K true child s1 s2 msg hm ht hwait
      · rename_i child1 s2 hwait
        obtain ⟨-, -, hm1, -⟩ := wait_ok_frame K true child child1 s1 s2 hwait
        split
        · split
          · simp
          · exact ih s2 hrest
        · rename_i hnt
          split
          · simp
          · rename_i hrun
            obtain ⟨ih1, ih2⟩ := ih s2 hrest
            refine ⟨ih1, ?_⟩
            intro hnone e he
            rcases List.mem_cons.1 he with rfl | he
            · exact ⟨by simpa using hnt, by simpa using hrun, hm1⟩
            · exact ih2 hnone e he

/-- An early return of the scan is `Exit` with `EXIT_FAILURE`. -/
theorem scan_children_some {σ : Type} (K : Kernel σ) (entries : List (Int × ChildProcess)) :
    ∀ (s : σ) (r : Result), (scan_children K entries s).1.1 = .ok (some r) →
      r = { result := .Exit, exit_status := EXIT_FAILURE } := by
  induction entries with
  | nil =>
    intro s r h
    simp [scan_children] at h
  | cons entry rest ih =>
    intro s r
    obtain ⟨first, child⟩ := entry
    rw [scan_children]
    repeat' split
    all_goals first
      | (intro h; simp at h; done)
      | (intro h
         simp only [Except.ok.injEq, Option.some.injEq] at h
         exact h.symm)
      | exact ih _ r

/-- C10: if every tracked handle is not terminated, running and not moved away
when `handle_signal` is called, then no assertion of `waitable` or `wait`
fails during the call, and when the call returns `Continue` every handle left
in the table is again not terminated, running and not moved away. -/
theorem tracked_children_invariant {σ : Type} (K : Kernel σ) (sig : signalfd_siginfo)
    (pm : ProcessManager) (s : σ) (h : ∀ e ∈ pm.child_processes_, e.2.live) :
    (∀ msg, (pm.handle_signal K sig s).1.1 ≠ .error (.assertion msg))
    ∧ (∀ r, (pm.handle_signal K sig s).1.1 = .ok r → r.result = .Continue →
        ∀ e ∈ (pm.handle_signal K sig s).1.2.child_processes_, e.2.live) := by
  obtain ⟨h1, h2⟩ := scan_children_live K pm.child_processes_ s h
  unfold ProcessManager.handle_signal
  split
  · split
    · exact ⟨by simp, fun r hr hc => by simp at hr; rw [← hr] at hc; simp at hc⟩
    · split
      · rename_i e entries s1 hscan
        rw [hscan] at h1
        refine ⟨?_, by simp⟩
        intro msg hmsg
        simp only [Except.error.injEq] at hmsg
        exact h1 msg (by rw [hmsg])
      · rename_i r0 entries s1 hscan
        refine ⟨by simp, ?_⟩
        intro r hr hc e he
        exfalso
        have hr0 := scan_children_some K pm.child_processes_ s r0 (by rw [hscan])
        simp only [Except.ok.injEq] at hr
        rw [← hr, hr0] at hc
        simp at hc
      · rename_i entries s1 hscan
        rw [hscan] at h2
        exact ⟨by simp, fun r _ _ e he => h2 rfl e he⟩
  · split
    · exact ⟨by simp, fun r hr hc => by simp at hr; rw [← hr] at hc; simp at hc⟩
    · exact ⟨by simp, fun r hr hc => by simp at hr; rw [← hr] at hc; simp at hc⟩

/-! ## The log of the scan -/

/-- Over the logging kernel `waitable` answers as over the kernel itself and
appends its calls to the log. -/
theorem waitable_logged {σ : Type} (K : Kernel σ) (c : ChildProcess) (s : σ) (l : List Call) :
    c.waitable K.logged (s, l)
      = ((c.waitable K s).1,
          ((c.waitable K s).2, l ++ (c.waitable K.logged (s, [])).2.2)) := by
  by_cases hm : c.moved_away_ = true
  · simp [ChildProcess.waitable, hm]
  · by_cases ht : c.terminated_ = true
    · simp [ChildProcess.waitable, hm, ht]
    · simp only [ChildProcess.waitable, hm, ht, if_false, Kernel.logged]
      rcases K.waitid c.pid_ waitable_options s with ⟨a, s1⟩
      cases a with
      | none => simp
      | some infop =>
        simp only
        split_ifs <;> simp

/-- Over the logging kernel `wait` answers as over the kernel itself and
appends its calls to the log. -/
theorem wait_logged {σ : Type} (K : Kernel σ) (nonblocking : Bool) (c : ChildProcess) (s : σ)
    (l : List Call) :
    c.wait K.logged nonblocking (s, l)
      = ((c.wait K nonblocking s).1,
          ((c.wait K nonblocking s).2, l ++ (c.wait K.logged nonblocking (s, [])).2.2)) := by
  by_cases hm : c.moved_away_ = true
  · simp [ChildProcess.wait, hm]
  · by_cases ht : c.terminated_ = true
    · simp [ChildProcess.wait, hm, ht]
    · simp only [ChildProcess.wait, hm, ht, if_false, Kernel.logged]
      rcases K.waitid c.pid_ (wait_options nonblocking) s with ⟨a, s1⟩
      cases a with
      | none => simp
      | some infop =>
        simp only [Bool.false_eq_true, if_false, List.nil_append]
        split_ifs <;> rfl

/-- Over the logging kernel the scan answers as over the kernel itself and
appends `scan_trace` to the log. -/
theorem scan_children_logged {σ : Type} (K : Kernel σ) (entries : List (Int × ChildProcess)) :
    ∀ (s : σ) (l : List Call),
      scan_children K.logged entries (s, l)
        = ((scan_children K entries s).1,
            ((scan_children K entries s).2, l ++ scan_trace K entries s)) := by
  induction entries with
  | nil =>
    intro s l
    simp [scan_children, scan_trace]
  | cons entry rest ih =>
    intro s l
    obtain ⟨first, child⟩ := entry
    rcases hw : child.waitable K s with ⟨r, s1⟩
    have el : ∀ l, child.waitable K.logged (s, l)
        = (r, (s1, l ++ (child.waitable K.logged (s, [])).2.2)) := by
      intro l
      rw [waitable_logged K child s l, hw]
    generalize (child.waitable K.logged (s, [])).2.2 = t at el
    have e0 := el []
    rw [List.nil_append] at e0
    unfold scan_trace
    rw [scan_children, scan_children, scan_children, hw, el l, e0]
    cases r with
    | error e => rfl
    | ok b =>
      cases b with
      | false =>
        simp only
        rw [ih s1 (l ++ t), ih s1 t]
        simp
      | true =>
        simp only
        rcases hq : child.wait K true s1 with ⟨q, s2⟩
        have ql : ∀ l, child.wait K.logged true (s1, l)
            = (q, (s2, l ++ (child.wait K.logged true (s1, [])).2.2)) := by
          intro l
          rw [wait_logged K true child s1 l, hq]
        generalize (child.wait K.logged true (s1, [])).2.2 = u at ql
        rw [ql (l ++ t), ql t]
        cases q with
        | error e => simp
        | ok child1 =>
          simp only
          by_cases ht : child1.terminated_ = true
          · by_cases hx : child1.exit_status_ = 0
            · simp only [ht, hx, if_true, ne_eq, not_true_eq_false, if_false]
              rw [ih s2 (l ++ t ++ u), ih s2 (t ++ u)]
              simp
            · simp [ht, hx]
          · by_cases hr : child1.running_ = true
            · simp only [ht, hr, if_false, Bool.not_true, Bool.false_eq_true]
              rw [ih s2 (l ++ t ++ u), ih s2 (t ++ u)]
              simp
            · simp [ht, hr]

/-- On a handle that passes the assertions, `waitable` makes exactly one
`waitid` call, with the probe flags. -/
theorem waitable_call {σ : Type} (K : Kernel σ) (c : ChildProcess) (s : σ) (l : List Call)
    (hm : c.moved_away_ = false) (ht : c.terminated_ = false) :
    c.waitable K.logged (s, l)
      = ((c.waitable K s).1,
          ((K.waitid c.pid_ waitable_options s).2,
            l ++ [Call.waitid c.pid_ waitable_options (K.waitid c.pid_ waitable_options s).1]))
      ∧ (c.waitable K s).2 = (K.waitid c.pid_ waitable_options s).2 := by
  simp only [ChildProcess.waitable, hm, ht, Bool.false_eq_true, if_false, Kernel.logged]
  rcases K.waitid c.pid_ waitable_options s with ⟨a, s1⟩
  cases a with
  | none => simp
  | some infop =>
    simp only
    split_ifs <;> simp

/-- On a handle that passes the assertions, `wait` makes exactly one `waitid`
call, with the flags of its mode. -/
theorem wait_call {σ : Type} (K : Kernel σ) (nonblocking : Bool) (c : ChildProcess) (s : σ)
    (l : List Call) (hm : c.moved_away_ = false) (ht : c.terminated_ = false) :
    c.wait K.logged nonblocking (s, l)
      = ((c.wait K nonblocking s).1,
          ((K.waitid c.pid_ (wait_options nonblocking) s).2,
            l ++ [Call.waitid c.pid_ (wait_options nonblocking)
              (K.waitid c.pid_ (wait_options nonblocking) s).1]))
      ∧ (c.wait K nonblocking s).2 = (K.waitid c.pid_ (wait_options nonblocking) s).2 := by
  simp only [ChildProcess.wait, hm, ht, Bool.false_eq_true, if_false, Kernel.logged]
  rcases K.waitid c.pid_ (wait_options nonblocking) s with ⟨a, s1⟩
  cases a with
  | none => simp
  | some infop =>
    simp only
    split_ifs <;> exact ⟨rfl, rfl⟩

/-- The calls of the scan at an entry whose handle passes the assertions: the
probe, then, if the child is waitable, the non-blocking wait, then the calls
for the following entries unless the scan ends here. -/
theorem scan_trace_cons {σ : Type} (K : Kernel σ) (first : Int) (child : ChildProcess)
    (rest : List (Int × ChildProcess)) (s : σ)
    (hm : child.moved_away_ = false) (ht : child.terminated_ = false) :
    scan_trace K ((first, child) :: rest) s
      = Call.waitid child.pid_ waitable_options (K.waitid child.pid_ waitable_options s).1 ::
        (match (child.waitable K s).1 with
          | .error _ => []
          | .ok false => scan_trace K rest (K.waitid child.pid_ waitable_options s).2
          | .ok true =>
            Call.waitid child.pid_ (wait_options true)
                (K.waitid child.pid_ (wait_options true)
                  (K.waitid child.pid_ waitable_options s).2).1 ::
              (match (child.wait K true (K.waitid child.pid_ waitable_options s).2).1 with
                | .error _ => []
                | .ok child1 =>
                  if child1.terminated_ = true ∧ child1.exit_status_ ≠ 0 then []
                  else if child1.terminated_ = false ∧ child1.running_ = false then []
                  else scan_trace K rest
                    (K.waitid child.pid_ (wait_options true)
                      (K.waitid child.pid_ waitable_options s).2).2)) := by
  unfold scan_trace
  rw [scan_children, (waitable_call K child s [] hm ht).1]
  rcases hw : (child.waitable K s).1 with e | b
  · rfl
  · cases b with
    | false =>
      simp only
      rw [scan_children_logged]
      rfl
    | true =>
      simp only
      rw [(wait_call K true child _ _ hm ht).1]
      rcases hq : (child.wait K true (K.waitid child.pid_ waitable_options s).2).1 with e | child1
      · rfl
      · simp only
        by_cases h1 : child1.terminated_ = true
        · by_cases h2 : child1.exit_status_ = 0
          · simp only [h1, h2, if_true, ne_eq, not_true_eq_false, if_false, and_false, and_true,
              Bool.true_eq_false, false_and]
            rw [scan_children_logged]
            rfl
          · simp [h1, h2]
        · by_cases h3 : child1.running_ = true
          · simp only [h1, h3, if_false, Bool.not_true, Bool.false_eq_true, false_and,
              Bool.true_eq_false, and_false]
            rw [scan_children_logged]
            rfl
          · simp [h1, h3]

/-- The probe flags differ from the flags of either mode of `wait`. -/
theorem wait_options_ne (nonblocking : Bool) : wait_options nonblocking ≠ waitable_options := by
  cases nonblocking <;> decide

/-- What `waitable` saw when it answered. -/
theorem waitable_ok {σ : Type} (K : Kernel σ) (c : ChildProcess) (s s1 : σ) (b : Bool)
    (h : c.waitable K s = (.ok b, s1)) :
    c.moved_away_ = false ∧ c.terminated_ = false
      ∧ ∃ infop, K.waitid c.pid_ waitable_options s = (some infop, s1)
        ∧ (b = false → infop.si_pid = 0)
        ∧ (b = true → infop.si_pid = c.pid_ ∧ c.pid_ ≠ 0) := by
  unfold ChildProcess.waitable at h
  split at h
  · simp at h
  · split at h
    · simp at h
    · rename_i hm ht
      refine ⟨by simpa using hm, by simpa using ht, ?_⟩
      split at h
      · simp at h
      · rename_i infop s2 hk
        refine ⟨infop, ?_, ?_, ?_⟩
        · split_ifs at h <;> simp_all
        · split_ifs at h <;> simp_all
        · split_ifs at h with h0 h1
          · simp_all
          · intro _
            exact ⟨h1, fun hz => h0 (h1.trans hz)⟩
          · simp at h

/-- The result of `wait` on an answer that names the handle's pid with
`SIGCHLD`, as a function of `si_code`. -/
theorem wait_of_answer {σ : Type} (K : Kernel σ) (nonblocking : Bool) (c : ChildProcess)
    (s s1 : σ) (infop : siginfo_t)
    (hmoved : c.moved_away_ = false) (hterm : c.terminated_ = false) (hpid : c.pid_ ≠ 0)
    (hcall : K.waitid c.pid_ (wait_options nonblocking) s = (some infop, s1))
    (hsi_pid : infop.si_pid = c.pid_) (hsigno : infop.si_signo = SIGCHLD) :
    c.wait K nonblocking s
      = (if infop.si_code = CLD_EXITED then
          .ok { c with terminated_ := true, exit_status_ := infop.si_status }
        else if infop.si_code = CLD_KILLED ∨ infop.si_code = CLD_DUMPED then
          .ok { c with terminated_ := true, exit_status_ := infop.si_status,
                       died_on_signal_ := true }
        else if infop.si_code = CLD_STOPPED then .ok { c with running_ := false }
        else if infop.si_code = CLD_CONTINUED then .ok { c with running_ := true }
        else .error (.runtime_error "waitid: unexpected siginfo_t si_code"), s1) := by
  have hne : infop.si_pid ≠ 0 := by rw [hsi_pid]; exact hpid
  simp only [ChildProcess.wait, hmoved, hterm, hcall, Bool.false_eq_true, if_false]
  simp only [hsi_pid, hsigno, hpid, decide_False, Bool.and_false, Bool.false_eq_true, if_false,
    ne_eq, not_true_eq_false]
  split_ifs <;> rfl

/-- A fatal change that `wait` consumed leaves a handle on which the scan
returns. -/
theorem wait_of_fatal {σ : Type} (K : Kernel σ) (c : ChildProcess)
    (s s1 : σ) (infop : siginfo_t)
    (hmoved : c.moved_away_ = false) (hterm : c.terminated_ = false) (hpid : c.pid_ ≠ 0)
    (hcall : K.waitid c.pid_ (wait_options true) s = (some infop, s1))
    (hsi_pid : infop.si_pid = c.pid_) (hsigno : infop.si_signo = SIGCHLD)
    (hfatal : fatal_change infop) :
    ∃ c1, c.wait K true s = (.ok c1, s1)
      ∧ ((c1.terminated_ = true ∧ c1.exit_status_ ≠ 0)
          ∨ (c1.terminated_ = false ∧ c1.running_ = false)) := by
  rw [wait_of_answer K true c s s1 infop hmoved hterm hpid hcall hsi_pid hsigno]
  rcases hfatal with ⟨hc, hs⟩ | ⟨hc | hc, hs⟩ | hc
  · exact ⟨_, by rw [if_pos hc], Or.inl ⟨rfl, hs⟩⟩
  · refine ⟨_, by rw [if_neg (by rw [hc]; decide), if_pos (Or.inl hc)], Or.inl ⟨rfl, hs⟩⟩
  · refine ⟨_, by rw [if_neg (by rw [hc]; decide), if_pos (Or.inr hc)], Or.inl ⟨rfl, hs⟩⟩
  · refine ⟨{ c with running_ := false }, by
      rw [if_neg (by rw [hc]; decide), if_neg (by rw [hc]; decide), if_pos hc],
      Or.inr ⟨hterm, rfl⟩⟩

/-- For `SIGCHLD` with a non-empty table the calls of `handle_signal` are the
calls of the scan from `begin()`. -/
theorem trace_of_sigchld {σ : Type} (K : Kernel σ) (sig : signalfd_siginfo)
    (pm : ProcessManager) (s : σ) (hsig : (sig.ssi_signo : Int) = SIGCHLD)
    (hne : pm.child_processes_ ≠ []) :
    pm.trace K sig s = scan_trace K pm.child_processes_ s := by
  have hemp : pm.child_processes_.isEmpty = false := by
    cases h : pm.child_processes_ with
    | nil => exact absurd h hne
    | cons _ _ => rfl
  unfold ProcessManager.trace ProcessManager.handle_signal scan_trace
  simp only [hsig, if_true, hemp, Bool.false_eq_true, if_false]
  rcases scan_children K.logged pm.child_processes_ (s, []) with ⟨⟨r, entries⟩, st⟩
  rcases r with e | r
  · rfl
  · cases r <;> rfl

/-- For `SIGCHLD` with a non-empty table the result of `handle_signal` is that
of the scan: its failure, its early return, or `Continue` at the end. -/
theorem handle_signal_of_sigchld {σ : Type} (K : Kernel σ) (sig : signalfd_siginfo)
    (pm : ProcessManager) (s : σ) (hsig : (sig.ssi_signo : Int) = SIGCHLD)
    (hne : pm.child_processes_ ≠ []) :
    pm.handle_signal K sig s
      = (((scan_children K pm.child_processes_ s).1.1.map
            (fun r => r.getD { result := .Continue, exit_status := EXIT_SUCCESS }),
          { child_processes_ := (scan_children K pm.child_processes_ s).1.2 }),
         (scan_children K pm.child_processes_ s).2) := by
  have hemp : pm.child_processes_.isEmpty = false := by
    cases h : pm.child_processes_ with
    | nil => exact absurd h hne
    | cons _ _ => rfl
  unfold ProcessManager.handle_signal
  simp only [hsig, if_true, hemp, Bool.false_eq_true, if_false]
  rcases scan_children K pm.child_processes_ s with ⟨⟨r, entries⟩, st⟩
  rcases r with e | r
  · rfl
  · cases r <;> rfl

/-- The scan makes no call at an entry whose handle fails an assertion. -/
theorem scan_trace_of_assertion {σ : Type} (K : Kernel σ) (first : Int) (child : ChildProcess)
    (rest : List (Int × ChildProcess)) (s : σ)
    (h : ¬(child.moved_away_ = false ∧ child.terminated_ = false)) :
    scan_trace K ((first, child) :: rest) s = [] := by
  unfold scan_trace
  rw [scan_children]
  by_cases hm : child.moved_away_ = true
  · simp [ChildProcess.waitable, hm]
  · have ht : child.terminated_ = true := by
      by_contra ht
      exact h ⟨by simpa using hm, by simpa using ht⟩
    simp [ChildProcess.waitable, hm, ht]

/-- If the scan consumed a fatal state change, it returned `Exit` with
`EXIT_FAILURE`. -/
theorem scan_children_of_fatal {σ : Type} (K : Kernel σ)
    (entries : List (Int × ChildProcess)) :
    ∀ s : σ,
      (∃ pid infop, Call.waitid pid (wait_options true) (some infop) ∈ scan_trace K entries s
        ∧ infop.si_pid = pid ∧ infop.si_signo = SIGCHLD ∧ fatal_change infop) →
      (scan_children K entries s).1.1
        = .ok (some { result := .Exit, exit_status := EXIT_FAILURE }) := by
  induction entries with
  | nil =>
    intro s h
    obtain ⟨pid, infop, hmem, -⟩ := h
    simp [scan_trace, scan_children] at hmem
  | cons entry rest ih =>
    intro s h
    obtain ⟨first, child⟩ := entry
    obtain ⟨pid, infop, hmem, hpid, hsigno, hfatal⟩ := h
    by_cases hlive : child.moved_away_ = false ∧ child.terminated_ = false
    swap
    · rw [scan_trace_of_assertion K first child rest s hlive] at hmem
      simp at hmem
    obtain ⟨hm, ht⟩ := hlive
    rw [scan_trace_cons K first child rest s hm ht] at hmem
    have hst := (waitable_call K child s [] hm ht).2
    rcases hw : child.waitable K s with ⟨r, s1⟩
    rw [hw] at hmem hst
    simp only at hmem hst
    subst hst
    rw [scan_children, hw]
    have hprobe : Call.waitid pid (wait_options true) (some infop)
        ≠ Call.waitid child.pid_ waitable_options
            (K.waitid child.pid_ waitable_options s).1 := by
      intro heq
      injection heq with _ ho _
      exact wait_options_ne true ho
    rcases List.mem_cons.1 hmem with heq | hmem
    · exact absurd heq hprobe
    rcases r with e | b
    · simp at hmem
    cases b with
    | false =>
      simp only at hmem ⊢
      exact ih _ ⟨pid, infop, hmem, hpid, hsigno, hfatal⟩
    | true =>
      simp only at hmem ⊢
      obtain ⟨-, -, probe, -, -, hwait⟩ := waitable_ok K child s _ true hw
      obtain ⟨-, hpid0⟩ := hwait rfl
      have hqs := (wait_call K true child (K.waitid child.pid_ waitable_options s).2 [] hm ht).2
      rcases hq : child.wait K true (K.waitid child.pid_ waitable_options s).2 with ⟨q, s2⟩
      rw [hq] at hmem hqs
      simp only at hmem hqs
      subst hqs
      rcases List.mem_cons.1 hmem with heq | hmem
      · injection heq with hp _ hr
        subst hp
        obtain ⟨c1, hc1, hcase⟩ := wait_of_fatal K child _ _ infop hm ht hpid0
          (Prod.ext hr.symm rfl) hpid hsigno hfatal
        rw [hc1] at hq
        injection hq with hq _
        subst hq
        rcases hcase with ⟨h1, h2⟩ | ⟨h1, h2⟩
        · simp [h1, h2]
        · simp [h1, h2]
      · rcases q with e | c1
        · simp at hmem
        · simp only at hmem ⊢
          by_cases h1 : c1.terminated_ = true
          · by_cases h2 : c1.exit_status_ = 0
            · simp only [h1, h2, ne_eq, not_true_eq_false, and_false, if_false,
                Bool.true_eq_false, false_and, if_true] at hmem ⊢
              exact ih _ ⟨pid, infop, hmem, hpid, hsigno, hfatal⟩
            · simp [h1, h2]
          · by_cases h3 : c1.running_ = true
            · simp only [h1, h3, false_and, if_false, Bool.true_eq_false, and_false,
                Bool.not_true, Bool.false_eq_true] at hmem ⊢
              exact ih _ ⟨pid, infop, hmem, hpid, hsigno, hfatal⟩
            · simp [h1, h3]

/-- C3: for a non-empty table and `SIGCHLD`, if among the state changes that
the call consumed (the answers to its non-blocking `wait`s) one is a normal
exit with a non-zero status, a death by signal or a stop, then `handle_signal`
returns `Exit` with the non-zero status `EXIT_FAILURE`. -/
theorem fatal_change_exits {σ : Type} (K : Kernel σ) (sig : signalfd_siginfo)
    (pm : ProcessManager) (s : σ) (hsig : (sig.ssi_signo : Int) = SIGCHLD)
    (hne : pm.child_processes_ ≠ [])
    (hfatal : ∃ pid infop,
      Call.waitid pid (wait_options true) (some infop) ∈ pm.trace K sig s
        ∧ infop.si_pid = pid ∧ infop.si_signo = SIGCHLD ∧ fatal_change infop) :
    (pm.handle_signal K sig s).1.1 = .ok { result := .Exit, exit_status := EXIT_FAILURE }
      ∧ EXIT_FAILURE ≠ 0 := by
  rw [trace_of_sigchld K sig pm s hsig hne] at hfatal
  rw [handle_signal_of_sigchld K sig pm s hsig hne,
    scan_children_of_fatal K pm.child_processes_ s hfatal]
  exact ⟨rfl, by decide⟩

/-- The result of `waitable` as a function of the probe's answer. -/
theorem waitable_of_answer {σ : Type} (K : Kernel σ) (c : ChildProcess) (s s1 : σ)
    (infop : siginfo_t) (hm : c.moved_away_ = false) (ht : c.terminated_ = false)
    (hcall : K.waitid c.pid_ waitable_options s = (some infop, s1)) :
    c.waitable K s
      = (if infop.si_pid = 0 then .ok false
        else if infop.si_pid = c.pid_ then .ok true
        else .error (.runtime_error
          "waitid: unexpected value in siginfo_t si_pid field (not 0 or pid)"), s1) := by
  simp only [ChildProcess.waitable, hm, ht, hcall, Bool.false_eq_true, if_false]
  split_ifs <;> rfl

/-- When every probe of the scan answers "waitable" for the pids in `W` and
"not waitable" for the others, and every consumed change is a normal exit with
status `0`, the scan reaches the end of the table and leaves exactly the
entries whose pid is not in `W`, unchanged. -/
theorem scan_children_of_zero_exits {σ : Type} (K : Kernel σ) (W : Int → Bool)
    (entries : List (Int × ChildProcess)) :
    ∀ s : σ,
      (∀ e ∈ entries, e.2.moved_away_ = false ∧ e.2.terminated_ = false ∧ e.2.pid_ ≠ 0) →
      (∀ pid r, Call.waitid pid waitable_options r ∈ scan_trace K entries s →
        ∃ infop, r = some infop ∧ infop.si_pid = if W pid then pid else 0) →
      (∀ pid r, Call.waitid pid (wait_options true) r ∈ scan_trace K entries s →
        r = some (change pid CLD_EXITED 0)) →
      (scan_children K entries s).1
        = (.ok none, entries.filter (fun e => !W e.2.pid_)) := by
  induction entries with
  | nil =>
    intro s _ _ _
    rfl
  | cons entry rest ih =>
    intro s hwf hprobe hreap
    obtain ⟨first, child⟩ := entry
    obtain ⟨hm, ht, hpid0⟩ := hwf (first, child) (List.mem_cons_self _ _)
    have hrest : ∀ e ∈ rest, e.2.moved_away_ = false ∧ e.2.terminated_ = false ∧ e.2.pid_ ≠ 0 :=
      fun e he => hwf e (List.mem_cons_of_mem _ he)
    rw [scan_trace_cons K first child rest s hm ht] at hprobe hreap
    obtain ⟨infop, hans, hsi⟩ := hprobe _ _ (List.mem_cons_self _ _)
    have hcall : K.waitid child.pid_ waitable_options s
        = (some infop, (K.waitid child.pid_ waitable_options s).2) := Prod.ext hans rfl
    have hw := waitable_of_answer K child s _ infop hm ht hcall
    rw [scan_children, hw]
    rw [hw] at hprobe hreap
    cases hW : W child.pid_ with
    | false =>
      have h0 : infop.si_pid = 0 := by simpa [hW] using hsi
      simp only [h0, if_true] at hprobe hreap ⊢
      have key := ih _ hrest
        (fun pid r h => hprobe pid r (List.mem_cons_of_mem _ h))
        (fun pid r h => hreap pid r (List.mem_cons_of_mem _ h))
      rw [key]
      simp [List.filter_cons, hW]
    | true =>
      have h1 : infop.si_pid = child.pid_ := by simpa [hW] using hsi
      simp only [h1, hpid0, if_true, if_false] at hprobe hreap ⊢
      have hq := hreap _ _ (List.mem_cons_of_mem _ (List.mem_cons_self _ _))
      have hqcall : K.waitid child.pid_ (wait_options true)
            (K.waitid child.pid_ waitable_options s).2
          = (some (change child.pid_ CLD_EXITED 0),
              (K.waitid child.pid_ (wait_options true)
                (K.waitid child.pid_ waitable_options s).2).2) := Prod.ext hq rfl
      have hwait := wait_of_answer K true child _ _ _ hm ht hpid0 hqcall rfl rfl
      simp only [change, if_true] at hwait
      rw [hwait]
      rw [hwait] at hprobe hreap
      simp only [ne_eq, not_true_eq_false, and_false, if_false, Bool.true_eq_false, false_and,
        if_true] at hprobe hreap ⊢
      have key := ih _ hrest
        (fun pid r h => hprobe pid r (List.mem_cons_of_mem _ (List.mem_cons_of_mem _ h)))
        (fun pid r h => hreap pid r (List.mem_cons_of_mem _ (List.mem_cons_of_mem _ h)))
      rw [key]
      simp [List.filter_cons, hW]

/-- C2: for a non-empty table of handles that can be probed (not moved away,
not terminated, pid other than `0`) and `SIGCHLD`, when every probe of the call
answers "waitable" for the children in `W` and "not waitable" for the others,
and every state change the call consumes is a normal exit with status `0`,
`handle_signal` returns `Continue` and the table it leaves is the original one
without the entries of the children in `W`, the other entries unchanged. -/
theorem zero_exits_are_removed {σ : Type} (K : Kernel σ) (W : Int → Bool)
    (sig : signalfd_siginfo) (pm : ProcessManager) (s : σ)
    (hsig : (sig.ssi_signo : Int) = SIGCHLD) (hne : pm.child_processes_ ≠ [])
    (hwf : ∀ e ∈ pm.child_processes_,
      e.2.moved_away_ = false ∧ e.2.terminated_ = false ∧ e.2.pid_ ≠ 0)
    (hprobe : ∀ pid r, Call.waitid pid waitable_options r ∈ pm.trace K sig s →
      ∃ infop, r = some infop ∧ infop.si_pid = if W pid then pid else 0)
    (hreap : ∀ pid r, Call.waitid pid (wait_options true) r ∈ pm.trace K sig s →
      r = some (change pid CLD_EXITED 0)) :
    (pm.handle_signal K sig s).1
      = (.ok { result := .Continue, exit_status := EXIT_SUCCESS },
          { child_processes_ := pm.child_processes_.filter (fun e => !W e.2.pid_) }) := by
  rw [trace_of_sigchld K sig pm s hsig hne] at hprobe hreap
  rw [handle_signal_of_sigchld K sig pm s hsig hne,
    scan_children_of_zero_exits K W pm.child_processes_ s hwf hprobe hreap]
  rfl

/-- A probe is not counted by `waited`. -/
theorem waited_probe (pid : Int) (r : Option siginfo_t) (calls : List Call) :
    waited (Call.waitid pid waitable_options r :: calls) = waited calls := by
  rw [waited, if_neg (fun h => wait_options_ne true h.symm)]

/-- A non-blocking `wait` is counted by `waited`. -/
theorem waited_wait (pid : Int) (r : Option siginfo_t) (calls : List Call) :
    waited (Call.waitid pid (wait_options true) r :: calls) = pid :: waited calls := by
  rw [waited, if_pos rfl]

/-- A probe is counted by `probed`. -/
theorem probed_probe (pid : Int) (r : Option siginfo_t) (calls : List Call) :
    probed (Call.waitid pid waitable_options r :: calls) = pid :: probed calls := by
  rw [probed, if_pos rfl]

/-- A non-blocking `wait` is not counted by `probed`. -/
theorem probed_wait (pid : Int) (r : Option siginfo_t) (calls : List Call) :
    probed (Call.waitid pid (wait_options true) r :: calls) = probed calls := by
  rw [probed, if_neg (wait_options_ne true)]

/-- A probe is not counted by `consumed`. -/
theorem consumed_probe (pid : Int) (r : Option siginfo_t) (calls : List Call) :
    consumed (Call.waitid pid waitable_options r :: calls) = consumed calls := by
  cases r with
  | none => rw [consumed]
  | some infop => rw [consumed, if_neg (fun h => wait_options_ne true h.symm)]

/-- An answered non-blocking `wait` is counted by `consumed`. -/
theorem consumed_wait (pid : Int) (infop : siginfo_t) (calls : List Call) :
    consumed (Call.waitid pid (wait_options true) (some infop) :: calls)
      = infop :: consumed calls := by
  rw [consumed, if_pos rfl]

/-- On a valid state change `wait` succeeds and leaves the handle with the
change applied. -/
theorem wait_of_valid {σ : Type} (K : Kernel σ) (nonblocking : Bool) (c : ChildProcess)
    (s s1 : σ) (infop : siginfo_t)
    (hmoved : c.moved_away_ = false) (hterm : c.terminated_ = false) (hpid : c.pid_ ≠ 0)
    (hcall : K.waitid c.pid_ (wait_options nonblocking) s = (some infop, s1))
    (hvalid : valid_change c.pid_ infop) :
    c.wait K nonblocking s = (.ok (c.after_change infop), s1) := by
  obtain ⟨h1, h2, h3⟩ := hvalid
  rw [wait_of_answer K nonblocking c s s1 infop hmoved hterm hpid hcall h1 h2]
  unfold ChildProcess.after_change
  rcases h3 with h | h | h | h | h <;> simp [h, CLD_EXITED, CLD_KILLED, CLD_DUMPED, CLD_STOPPED,
    CLD_CONTINUED]

/-- What a valid state change leaves on a handle that was not terminated: a
fatal change leaves it terminated with a non-zero status or stopped, any other
leaves it terminated with status 0 or running. -/
theorem after_change_flags (c : ChildProcess) (infop : siginfo_t) (pid : Int)
    (hterm : c.terminated_ = false)
    (hvalid : valid_change pid infop) :
    (fatal_change infop →
      ((c.after_change infop).terminated_ = true ∧ (c.after_change infop).exit_status_ ≠ 0)
        ∨ ((c.after_change infop).terminated_ = false
            ∧ (c.after_change infop).running_ = false))
    ∧ (¬fatal_change infop →
      ((c.after_change infop).terminated_ = true ∧ (c.after_change infop).exit_status_ = 0)
        ∨ ((c.after_change infop).terminated_ = false
            ∧ (c.after_change infop).running_ = true)) := by
  obtain ⟨-, -, h3⟩ := hvalid
  unfold ChildProcess.after_change fatal_change
  rcases h3 with h | h | h | h | h
  · by_cases hs : infop.si_status = 0 <;>
      simp [h, hs, CLD_EXITED, CLD_KILLED, CLD_DUMPED, CLD_STOPPED, CLD_CONTINUED]
  · by_cases hs : infop.si_status = 0 <;>
      simp [h, hs, CLD_EXITED, CLD_KILLED, CLD_DUMPED, CLD_STOPPED, CLD_CONTINUED]
  · by_cases hs : infop.si_status = 0 <;>
      simp [h, hs, CLD_EXITED, CLD_KILLED, CLD_DUMPED, CLD_STOPPED, CLD_CONTINUED]
  · simp [h, hterm, CLD_EXITED, CLD_KILLED, CLD_DUMPED, CLD_STOPPED, CLD_CONTINUED]
  · simp [h, hterm, CLD_EXITED, CLD_KILLED, CLD_DUMPED, CLD_STOPPED, CLD_CONTINUED]

/-- One step of the scan at an entry whose child has a pending, valid state
change: a fatal change ends the scan with `Exit` after the probe and the wait,
any other change is applied (the entry erased if the handle terminated with
status 0, kept otherwise) and the scan goes on with the next entry. -/
theorem scan_step_valid {σ : Type} (K : Kernel σ) (first : Int) (child : ChildProcess)
    (rest : List (Int × ChildProcess)) (s s1 s2 : σ) (probe change : siginfo_t)
    (hm : child.moved_away_ = false) (ht : child.terminated_ = false)
    (hpid0 : child.pid_ ≠ 0)
    (hprobe : K.waitid child.pid_ waitable_options s = (some probe, s1))
    (hpending : probe.si_pid = child.pid_)
    (hwait : K.waitid child.pid_ (wait_options true) s1 = (some change, s2))
    (hvalid : valid_change child.pid_ change) :
    (fatal_change change →
      scan_trace K ((first, child) :: rest) s
          = [Call.waitid child.pid_ waitable_options (some probe),
             Call.waitid child.pid_ (wait_options true) (some change)]
        ∧ (scan_children K ((first, child) :: rest) s).1
          = (.ok (some { result := .Exit, exit_status := EXIT_FAILURE }),
              (first, child.after_change change) :: rest)
        ∧ kept (first, child.after_change change) = true)
    ∧ (¬fatal_change change →
      scan_trace K ((first, child) :: rest) s
          = Call.waitid child.pid_ waitable_options (some probe) ::
              Call.waitid child.pid_ (wait_options true) (some change) ::
                scan_trace K rest s2
        ∧ ((kept (first, child.after_change change) = false
              ∧ (scan_children K ((first, child) :: rest) s).1 = (scan_children K rest s2).1)
            ∨ (kept (first, child.after_change change) = true
              ∧ (scan_children K ((first, child) :: rest) s).1
                = ((scan_children K rest s2).1.1,
                    (first, child.after_change change) :: (scan_children K rest s2).1.2)))) := by
  have hw := waitable_of_answer K child s s1 probe hm ht hprobe
  simp only [hpending, hpid0, if_true, if_false] at hw
  have hq := wait_of_valid K true child s1 s2 change hm ht hpid0 hwait hvalid
  have hT := scan_trace_cons K first child rest s hm ht
  rw [hw, hprobe] at hT
  simp only at hT
  rw [hq, hwait] at hT
  simp only at hT
  have hS : scan_children K ((first, child) :: rest) s
      = (if (child.after_change change).terminated_ = true then
          if (child.after_change change).exit_status_ ≠ 0 then
            ((.ok (some { result := .Exit, exit_status := EXIT_FAILURE }),
              (first, child.after_change change) :: rest), s2)
          else scan_children K rest s2
        else
          if (!(child.after_change change).running_) = true then
            ((.ok (some { result := .Exit, exit_status := EXIT_FAILURE }),
              (first, child.after_change change) :: rest), s2)
          else
            (((scan_children K rest s2).1.1,
              (first, child.after_change change) :: (scan_children K rest s2).1.2),
              (scan_children K rest s2).2)) := by
    rw [scan_children, hw]
    simp only
    rw [hq]
  obtain ⟨hfatal, hother⟩ := after_change_flags child change child.pid_ ht hvalid
  constructor
  · intro hf
    rcases hfatal hf with ⟨h1, h2⟩ | ⟨h1, h2⟩
    · exact ⟨by rw [hT]; simp [h1, h2], by rw [hS]; simp [h1, h2], by simp [kept, h1, h2]⟩
    · exact ⟨by rw [hT]; simp [h1, h2], by rw [hS]; simp [h1, h2], by simp [kept, h1]⟩
  · intro hf
    rcases hother hf with ⟨h1, h2⟩ | ⟨h1, h2⟩
    · exact ⟨by rw [hT]; simp [h1, h2],
        Or.inl ⟨by simp [kept, h1, h2], by rw [hS]; simp [h1, h2]⟩⟩
    · exact ⟨by rw [hT]; simp [h1, h2],
        Or.inr ⟨by simp [kept, h1], by rw [hS]; simp [h1, h2]⟩⟩

/-- When every probe of the scan finds a pending change and every change it
consumes is valid, the scan probes and waits on the entries in table order, one
probe and one wait each, applies each change to its handle, erases the entries
whose handle terminated with status 0, and goes on until the table ends or a
consumed change is fatal: it reaches the end, having scanned every entry, when
no consumed change is fatal, and otherwise returns `Exit` at the first fatal
one, leaving the entries after it as they were. -/
theorem scan_children_applies {σ : Type} (K : Kernel σ)
    (entries : List (Int × ChildProcess)) :
    ∀ s : σ,
      (∀ e ∈ entries, e.2.moved_away_ = false ∧ e.2.terminated_ = false ∧ e.2.pid_ ≠ 0) →
      (∀ pid r, Call.waitid pid waitable_options r ∈ scan_trace K entries s →
        ∃ infop, r = some infop ∧ infop.si_pid = pid) →
      (∀ pid r, Call.waitid pid (wait_options true) r ∈ scan_trace K entries s →
        ∃ infop, r = some infop ∧ valid_change pid infop) →
      ∃ scanned unscanned,
        entries = scanned ++ unscanned
        ∧ probed (scan_trace K entries s) = scanned.map (fun e => e.2.pid_)
        ∧ waited (scan_trace K entries s) = scanned.map (fun e => e.2.pid_)
        ∧ (consumed (scan_trace K entries s)).length = scanned.length
        ∧ (scan_children K entries s).1.2
            = (applied scanned (consumed (scan_trace K entries s))).filter kept ++ unscanned
        ∧ ((unscanned = []
              ∧ (∀ infop ∈ consumed (scan_trace K entries s), ¬fatal_change infop)
              ∧ (scan_children K entries s).1.1 = .ok none)
            ∨ ((∃ infop, (consumed (scan_trace K entries s)).getLast? = some infop
                  ∧ fatal_change infop)
              ∧ (∀ infop ∈ (consumed (scan_trace K entries s)).dropLast, ¬fatal_change infop)
              ∧ (scan_children K entries s).1.1
                  = .ok (some { result := .Exit, exit_status := EXIT_FAILURE }))) := by
  induction entries with
  | nil =>
    intro s _ _ _
    refine ⟨[], [], rfl, rfl, rfl, rfl, rfl, Or.inl ⟨rfl, ?_, rfl⟩⟩
    intro infop h
    simp [scan_trace, scan_children, consumed] at h
  | cons entry rest ih =>
    intro s hwf hpending hvalid
    obtain ⟨first, child⟩ := entry
    obtain ⟨hm, ht, hpid0⟩ := hwf (first, child) (List.mem_cons_self _ _)
    have hrest : ∀ e ∈ rest, e.2.moved_away_ = false ∧ e.2.terminated_ = false ∧ e.2.pid_ ≠ 0 :=
      fun e he => hwf e (List.mem_cons_of_mem _ he)
    have hT0 := scan_trace_cons K first child rest s hm ht
    obtain ⟨probe, hans, hsi⟩ := hpending _ _ (by rw [hT0]; exact List.mem_cons_self _ _)
    have hprobe : K.waitid child.pid_ waitable_options s
        = (some probe, (K.waitid child.pid_ waitable_options s).2) := Prod.ext hans rfl
    have hw := waitable_of_answer K child s _ probe hm ht hprobe
    simp only [hsi, hpid0, if_true, if_false] at hw
    rw [hw] at hT0
    simp only at hT0
    obtain ⟨change, hans2, hval⟩ := hvalid _ _
      (by rw [hT0]; exact List.mem_cons_of_mem _ (List.mem_cons_self _ _))
    have hwait : K.waitid child.pid_ (wait_options true)
          (K.waitid child.pid_ waitable_options s).2
        = (some change, (K.waitid child.pid_ (wait_options true)
            (K.waitid child.pid_ waitable_options s).2).2) := Prod.ext hans2 rfl
    obtain ⟨hF, hN⟩ := scan_step_valid K first child rest s _ _ probe change hm ht hpid0
      hprobe hsi hwait hval
    by_cases hf : fatal_change change
    · obtain ⟨hT, hS, hk⟩ := hF hf
      rw [hT, hS]
      refine ⟨[(first, child)], rest, rfl, ?_, ?_, ?_, ?_, Or.inr ⟨⟨change, ?_, hf⟩, ?_, rfl⟩⟩
      · rw [probed_probe, probed_wait]
        rfl
      · rw [waited_probe, waited_wait]
        rfl
      · rw [consumed_probe, consumed_wait]
        rfl
      · rw [consumed_probe, consumed_wait]
        simp [consumed, applied, List.filter_cons, hk]
      · rw [consumed_probe, consumed_wait]
        rfl
      · rw [consumed_probe, consumed_wait]
        simp [consumed]
    · obtain ⟨hT, hS⟩ := hN hf
      obtain ⟨scanned, unscanned, hsplit, hp, hwd, hlen, htab, hres⟩ := ih _ hrest
        (fun pid r h => hpending pid r
          (by rw [hT]; exact List.mem_cons_of_mem _ (List.mem_cons_of_mem _ h)))
        (fun pid r h => hvalid pid r
          (by rw [hT]; exact List.mem_cons_of_mem _ (List.mem_cons_of_mem _ h)))
      have h11 : (scan_children K ((first, child) :: rest) s).1.1
          = (scan_children K rest (K.waitid child.pid_ (wait_options true)
              (K.waitid child.pid_ waitable_options s).2).2).1.1 := by
        rcases hS with ⟨-, h⟩ | ⟨-, h⟩ <;> rw [h]
      have h12 : (scan_children K ((first, child) :: rest) s).1.2
          = [(first, child.after_change change)].filter kept
            ++ (scan_children K rest (K.waitid child.pid_ (wait_options true)
              (K.waitid child.pid_ waitable_options s).2).2).1.2 := by
        rcases hS with ⟨hk, h⟩ | ⟨hk, h⟩ <;> rw [h] <;> simp [List.filter_cons, hk]
      rw [hT, h11, h12, probed_probe, probed_wait, waited_probe, waited_wait, consumed_probe,
        consumed_wait]
      refine ⟨(first, child) :: scanned, unscanned, by rw [hsplit]; rfl, by rw [hp]; rfl,
        by rw [hwd]; rfl, by rw [List.length_cons, hlen]; rfl, ?_, ?_⟩
      · rw [htab]
        by_cases hk : kept (first, child.after_change change) = true <;>
          simp [applied, List.filter_cons, hk]
      · rcases hres with ⟨hu, hall, hnone⟩ | ⟨⟨x, hlast, hxf⟩, hdl, hexit⟩
        · refine Or.inl ⟨hu, ?_, hnone⟩
          intro infop hmem
          rcases List.mem_cons.1 hmem with rfl | hmem
          · exact hf
          · exact hall infop hmem
        · refine Or.inr ⟨⟨x, ?_, hxf⟩, ?_, hexit⟩
          · cases hc : consumed (scan_trace K rest (K.waitid child.pid_ (wait_options true)
                (K.waitid child.pid_ waitable_options s).2).2) with
            | nil => rw [hc] at hlast; simp at hlast
            | cons b l => rw [hc] at hlast; simpa using hlast
          · intro infop hmem
            cases hc : consumed (scan_trace K rest (K.waitid child.pid_ (wait_options true)
                (K.waitid child.pid_ waitable_options s).2).2) with
            | nil => rw [hc] at hlast; simp at hlast
            | cons b l =>
              rw [hc] at hmem hdl
              rw [List.dropLast_cons₂] at hmem
              rcases List.mem_cons.1 hmem with rfl | hmem
              · exact hf
              · exact hdl infop hmem

/-- C4 (as amended): for `SIGCHLD` and a non-empty table of tracked handles
(not moved away, not terminated, pid other than `0`), when every probe of the
call finds a pending state change and every change it consumes is valid,
`handle_signal` probes and waits on the handles in table order, once each and
without skipping any, and applies each consumed change to its handle (`wait`'s
table), erasing the entries whose handle terminated with status 0.  It stops
only at a fatal change: if no consumed change is fatal it has scanned all the
entries and returns `Continue`; otherwise the last change it consumed is the
first fatal one, it returns `Exit` with `EXIT_FAILURE`, and the entries after
that one are neither probed nor waited on and stay as they were. -/
theorem scan_waits_in_order {σ : Type} (K : Kernel σ) (sig : signalfd_siginfo)
    (pm : ProcessManager) (s : σ) (hsig : (sig.ssi_signo : Int) = SIGCHLD)
    (hne : pm.child_processes_ ≠ [])
    (hwf : ∀ e ∈ pm.child_processes_,
      e.2.moved_away_ = false ∧ e.2.terminated_ = false ∧ e.2.pid_ ≠ 0)
    (hpending : ∀ pid r, Call.waitid pid waitable_options r ∈ pm.trace K sig s →
      ∃ infop, r = some infop ∧ infop.si_pid = pid)
    (hvalid : ∀ pid r, Call.waitid pid (wait_options true) r ∈ pm.trace K sig s →
      ∃ infop, r = some infop ∧ valid_change pid infop) :
    ∃ scanned unscanned,
      pm.child_processes_ = scanned ++ unscanned
      ∧ probed (pm.trace K sig s) = scanned.map (fun e => e.2.pid_)
      ∧ waited (pm.trace K sig s) = scanned.map (fun e => e.2.pid_)
      ∧ (consumed (pm.trace K sig s)).length = scanned.length
      ∧ (pm.handle_signal K sig s).1.2.child_processes_
          = (applied scanned (consumed (pm.trace K sig s))).filter kept ++ unscanned
      ∧ ((unscanned = []
            ∧ (∀ infop ∈ consumed (pm.trace K sig s), ¬fatal_change infop)
            ∧ (pm.handle_signal K sig s).1.1
                = .ok { result := .Continue, exit_status := EXIT_SUCCESS })
          ∨ ((∃ infop, (consumed (pm.trace K sig s)).getLast? = some infop
                ∧ fatal_change infop)
            ∧ (∀ infop ∈ (consumed (pm.trace K sig s)).dropLast, ¬fatal_change infop)
            ∧ (pm.handle_signal K sig s).1.1
                = .ok { result := .Exit, exit_status := EXIT_FAILURE })) := by
  rw [trace_of_sigchld K sig pm s hsig hne] at hpending hvalid ⊢
  obtain ⟨scanned, unscanned, h1, h2, h3, h4, h5, h6⟩ :=
    scan_children_applies K pm.child_processes_ s hwf hpending hvalid
  rw [handle_signal_of_sigchld K sig pm s hsig hne]
  refine ⟨scanned, unscanned, h1, h2, h3, h4, h5, ?_⟩
  rcases h6 with ⟨hu, hall, hres⟩ | ⟨hlast, hdl, hres⟩
  · exact Or.inl ⟨hu, hall, by rw [hres]; rfl⟩
  · exact Or.inr ⟨hlast, hdl, by rw [hres]; rfl⟩

/-- C4 as stated fails on two children that have both exited with status 7:
both have a pending change, yet the call probes and waits on the first only,
returns `Exit` there, and leaves the second handle as it was. -/
theorem not_all_children_waited :
    (∀ e ∈ two_children.child_processes_,
        (all_exited_7.waitid e.2.pid_ waitable_options ()).1
          = some (change e.2.pid_ CLD_EXITED 7))
    ∧ two_children.trace all_exited_7 sigchld ()
        = [Call.waitid 5 waitable_options (some (change 5 CLD_EXITED 7)),
           Call.waitid 5 (wait_options true) (some (change 5 CLD_EXITED 7))]
    ∧ waited (two_children.trace all_exited_7 sigchld ()) = [5]
    ∧ ¬ (∀ e ∈ two_children.child_processes_,
          e.2.pid_ ∈ waited (two_children.trace all_exited_7 sigchld ()))
    ∧ (two_children.handle_signal all_exited_7 sigchld ()).1
        = (.ok { result := .Exit, exit_status := EXIT_FAILURE },
            { child_processes_ :=
                [(5, { fresh_child 5 with terminated_ := true, exit_status_ := 7 }),
                 (6, fresh_child 6)] }) := by
  refine ⟨?_, ?_, ?_, ?_, ?_⟩
  · intro e he
    rfl
  · rfl
  · rfl
  · rw [show waited (two_children.trace all_exited_7 sigchld ()) = [5] from rfl]
    decide
  · rfl

/-- C4 as amended, at two children that have both exited with status 0: the
call probes and waits on both, erases both entries and returns `Continue`. -/
theorem scan_waits_in_order_witness :
    ∃ scanned unscanned,
      two_children.child_processes_ = scanned ++ unscanned
      ∧ probed (two_children.trace all_exited_0 sigchld ())
          = scanned.map (fun e => e.2.pid_)
      ∧ waited (two_children.trace all_exited_0 sigchld ())
          = scanned.map (fun e => e.2.pid_)
      ∧ (consumed (two_children.trace all_exited_0 sigchld ())).length = scanned.length
      ∧ (two_children.handle_signal all_exited_0 sigchld ()).1.2.child_processes_
          = (applied scanned (consumed (two_children.trace all_exited_0 sigchld ()))).filter
              kept ++ unscanned
      ∧ ((unscanned = []
            ∧ (∀ infop ∈ consumed (two_children.trace all_exited_0 sigchld ()),
                ¬fatal_change infop)
            ∧ (two_children.handle_signal all_exited_0 sigchld ()).1.1
                = .ok { result := .Continue, exit_status := EXIT_SUCCESS })
          ∨ ((∃ infop, (consumed (two_children.trace all_exited_0 sigchld ())).getLast?
                  = some infop ∧ fatal_change infop)
            ∧ (∀ infop ∈ (consumed (two_children.trace all_exited_0 sigchld ())).dropLast,
                ¬fatal_change infop)
            ∧ (two_children.handle_signal all_exited_0 sigchld ()).1.1
                = .ok { result := .Exit, exit_status := EXIT_FAILURE })) := by
  have htrace : two_children.trace all_exited_0 sigchld ()
      = [Call.waitid 5 waitable_options (some (change 5 CLD_EXITED 0)),
         Call.waitid 5 (wait_options true) (some (change 5 CLD_EXITED 0)),
         Call.waitid 6 waitable_options (some (change 6 CLD_EXITED 0)),
         Call.waitid 6 (wait_options true) (some (change 6 CLD_EXITED 0))] := rfl
  exact scan_waits_in_order all_exited_0 sigchld two_children () rfl (by decide)
    (by
      intro e he
      have he2 : e = (5, fresh_child 5) ∨ e = (6, fresh_child 6) := by
        simpa [two_children] using he
      rcases he2 with rfl | rfl <;> decide)
    (by
      intro pid r h
      rw [htrace] at h
      simp only [List.mem_cons, Call.waitid.injEq, List.mem_singleton, List.not_mem_nil,
        or_false] at h
      rcases h with ⟨rfl, -, rfl⟩ | ⟨-, h, -⟩ | ⟨rfl, -, rfl⟩ | ⟨-, h, -⟩
      · exact ⟨_, rfl, rfl⟩
      · exact absurd h.symm (wait_options_ne true)
      · exact ⟨_, rfl, rfl⟩
      · exact absurd h.symm (wait_options_ne true))
    (by
      intro pid r h
      rw [htrace] at h
      simp only [List.mem_cons, Call.waitid.injEq, List.mem_singleton, List.not_mem_nil,
        or_false] at h
      rcases h with ⟨-, h, -⟩ | ⟨rfl, -, rfl⟩ | ⟨-, h, -⟩ | ⟨rfl, -, rfl⟩
      · exact absurd h (wait_options_ne true)
      · exact ⟨_, rfl, rfl, rfl, Or.inl rfl⟩
      · exact absurd h (wait_options_ne true)
      · exact ⟨_, rfl, rfl, rfl, Or.inl rfl⟩)

/-- C3 at two children that have both exited with status 7. -/
theorem fatal_change_exits_witness :
    (two_children.handle_signal all_exited_7 sigchld ()).1.1
      = .ok { result := .Exit, exit_status := EXIT_FAILURE } :=
  (fatal_change_exits all_exited_7 sigchld two_children () rfl (by decide)
    ⟨5, change 5 CLD_EXITED 7,
      by
        rw [show two_children.trace all_exited_7 sigchld ()
          = [Call.waitid 5 waitable_options (some (change 5 CLD_EXITED 7)),
             Call.waitid 5 (wait_options true) (some (change 5 CLD_EXITED 7))] from rfl]
        exact List.mem_cons_of_mem _ (List.mem_cons_self _ _),
      rfl, rfl, Or.inl ⟨rfl, by decide⟩⟩).1

/-- C2 at two children of which the one with pid 5 has exited with status 0
and the other has not changed state: the entry of pid 6 stays, unchanged. -/
theorem zero_exits_are_removed_witness :
    (two_children.handle_signal only_5_exited_0 sigchld ()).1
      = (.ok { result := .Continue, exit_status := EXIT_SUCCESS },
          { child_processes_ := [(6, fresh_child 6)] }) := by
  have htrace : two_children.trace only_5_exited_0 sigchld ()
      = [Call.waitid 5 waitable_options (some (change 5 CLD_EXITED 0)),
         Call.waitid 5 (wait_options true) (some (change 5 CLD_EXITED 0)),
         Call.waitid 6 waitable_options
           (some { si_pid := 0, si_signo := 0, si_code := 0, si_status := 0 })] := rfl
  have h := zero_exits_are_removed only_5_exited_0 (fun pid => decide (pid = 5)) sigchld
    two_children () rfl (by decide)
    (by
      intro e he
      have he2 : e = (5, fresh_child 5) ∨ e = (6, fresh_child 6) := by
        simpa [two_children] using he
      rcases he2 with rfl | rfl <;> decide)
    (by
      intro pid r h
      rw [htrace] at h
      simp only [List.mem_cons, Call.waitid.injEq, List.mem_singleton, List.not_mem_nil,
        or_false] at h
      rcases h with ⟨rfl, -, rfl⟩ | ⟨-, h, -⟩ | ⟨rfl, -, rfl⟩
      · exact ⟨_, rfl, rfl⟩
      · exact absurd h.symm (wait_options_ne true)
      · exact ⟨_, rfl, rfl⟩)
    (by
      intro pid r h
      rw [htrace] at h
      simp only [List.mem_cons, Call.waitid.injEq, List.mem_singleton, List.not_mem_nil,
        or_false] at h
      rcases h with ⟨-, h, -⟩ | ⟨rfl, -, rfl⟩ | ⟨-, h, -⟩
      · exact absurd h (wait_options_ne true)
      · rfl
      · exact absurd h (wait_options_ne true))
  exact h.trans rfl

/-- C10 at two freshly constructed children of which the one with pid 5 has
exited with status 0: the call returns `Continue` and the handle it leaves, that
of pid 6, is live. -/
theorem tracked_children_invariant_witness :
    (two_children.handle_signal only_5_exited_0 sigchld ()).1.2.child_processes_
        = [(6, fresh_child 6)]
      ∧ (fresh_child 6).live :=
  ⟨rfl,
    (tracked_children_invariant only_5_exited_0 sigchld two_children ()
      (by
        intro e he
        have he2 : e = (5, fresh_child 5) ∨ e = (6, fresh_child 6) := by
          simpa [two_children] using he
        rcases he2 with rfl | rfl <;> exact ⟨rfl, rfl, rfl⟩)).2
      { result := .Continue, exit_status := EXIT_SUCCESS } rfl rfl (6, fresh_child 6)
      (List.mem_singleton.2 rfl)⟩

/-- Over the logging kernel `handle_signal` answers as over the kernel itself
and appends `trace` to the log. -/
theorem handle_signal_logged {σ : Type} (K : Kernel σ) (sig : signalfd_siginfo)
    (pm : ProcessManager) (s : σ) (l : List Call) :
    pm.handle_signal K.logged sig (s, l)
      = ((pm.handle_signal K sig s).1,
          ((pm.handle_signal K sig s).2, l ++ pm.trace K sig s)) := by
  by_cases hscan : (sig.ssi_signo : Int) = SIGCHLD ∧ pm.child_processes_ ≠ []
  · rw [trace_of_sigchld K sig pm s hscan.1 hscan.2,
      handle_signal_of_sigchld K.logged sig pm (s, l) hscan.1 hscan.2,
      handle_signal_of_sigchld K sig pm s hscan.1 hscan.2,
      scan_children_logged K pm.child_processes_ s l]
  · have hno : (sig.ssi_signo : Int) ≠ SIGCHLD ∨ pm.child_processes_ = [] := by
      by_cases h1 : (sig.ssi_signo : Int) = SIGCHLD
      · right
        by_contra h2
        exact hscan ⟨h1, h2⟩
      · exact Or.inl h1
    unfold ProcessManager.trace
    rw [handle_signal_without_scan K.logged sig pm (s, l) hno,
      handle_signal_without_scan K.logged sig pm (s, []) hno,
      handle_signal_without_scan K sig pm s hno]
    simp

/-- The table after `emplace` holds the new entry and the old ones at most. -/
theorem mem_emplace (key : Int) (node : ChildProcess) (entries : List (Int × ChildProcess))
    (e : Int × ChildProcess) (h : e ∈ emplace key node entries) :
    e = (key, node) ∨ e ∈ entries := by
  induction entries with
  | nil =>
    simp only [emplace, List.mem_singleton] at h
    exact Or.inl h
  | cons entry rest ih =>
    obtain ⟨k, c⟩ := entry
    rw [emplace] at h
    split_ifs at h
    · rcases List.mem_cons.1 h with h | h
      · exact Or.inl h
      · exact Or.inr h
    · exact Or.inr h
    · rcases List.mem_cons.1 h with h | h
      · exact Or.inr (h ▸ List.mem_cons_self _ _)
      · rcases ih h with h | h
        · exact Or.inl h
        · exact Or.inr (List.mem_cons_of_mem _ h)

/-- `run_as_child` keeps the invariant of the tracked handles: the handle it
adds is live. -/
theorem run_as_child_live {σ : Type} (K : Kernel σ) (termination_signal : Int) (fuel : Nat)
    (program : String) (pm : ProcessManager) (s : σ)
    (h : ∀ e ∈ pm.child_processes_, e.2.live) :
    ∀ e ∈ (pm.run_as_child K termination_signal fuel program s).1.2.child_processes_,
      e.2.live := by
  unfold ProcessManager.run_as_child
  split
  · exact h
  · exact h
  · rename_i child s1 hcreate
    obtain ⟨-, hr, ht, -, hm, -⟩ := create_spec K program termination_signal s s1 child hcreate
    simp only [ChildProcess.move, hm, Bool.false_eq_true, if_false]
    split
    · split <;> exact h
    · intro e he
      rcases mem_emplace _ _ _ e he with rfl | he
      · exact ⟨ht, hr, rfl⟩
      · exact h e he

/-! ## The destructor -/

/-- The destructor of a terminated handle skips its loop: it makes no system
call and catches nothing.  This is the destructor that erasing a table entry
runs. -/
theorem destroy_of_terminated {σ : Type} (K : Kernel σ) (fuel : Nat) (c : ChildProcess) (s : σ)
    (h : c.terminated_ = true) :
    c.destroy K fuel s = (some (.ok { handle := c, caught := none }), s) := by
  unfold ChildProcess.destroy
  split
  · rfl
  · cases fuel <;> simp [ChildProcess.terminate_loop, h]

/-- The failures of `signal` on a handle that is not moved away are
exceptions, and `signal` leaves the kernel state of its `kill`. -/
theorem signal_error {σ : Type} (K : Kernel σ) (sig : Int) (c : ChildProcess) (s s1 : σ)
    (e : Failure) (hm : c.moved_away_ = false) (h : c.signal K sig s = (.error e, s1)) :
    e.isException = true := by
  simp only [ChildProcess.signal, hm, Bool.false_eq_true, if_false] at h
  split at h
  · split at h
    · simp only [Prod.mk.injEq, Except.error.injEq] at h
      rw [← h.1]
      rfl
    · simp at h
  · simp at h

/-- The failures of `resume` on a handle that is not moved away are
exceptions. -/
theorem resume_error {σ : Type} (K : Kernel σ) (c : ChildProcess) (s s1 : σ)
    (e : Failure) (hm : c.moved_away_ = false) (h : c.resume K s = (.error e, s1)) :
    e.isException = true := by
  simp only [ChildProcess.resume, hm, Bool.false_eq_true, if_false] at h
  split at h
  · exact signal_error K SIGCONT c s s1 e hm h
  · simp at h

/-- The failures of `wait` on a handle that passes the assertions are
exceptions. -/
theorem wait_error {σ : Type} (K : Kernel σ) (nonblocking : Bool) (c : ChildProcess) (s s1 : σ)
    (e : Failure) (hm : c.moved_away_ = false) (ht : c.terminated_ = false)
    (h : c.wait K nonblocking s = (.error e, s1)) : e.isException = true := by
  cases e with
  | assertion msg => exact absurd h (wait_no_assertion K nonblocking c s s1 msg hm ht)
  | runtime_error _ => rfl
  | unix_error _ => rfl

/-- When the destructor's loop ends, either a `wait` has reported termination,
or an exception interrupted a round and the handle is still not terminated. -/
theorem terminate_loop_spec {σ : Type} (K : Kernel σ) (fuel : Nat) :
    ∀ (c : ChildProcess) (s : σ) (r : ChildProcess × Option Failure),
      c.moved_away_ = false → (c.terminate_loop K fuel s).1 = some r →
      (r.2 = none ∧ r.1.terminated_ = true)
        ∨ (∃ e, r.2 = some e ∧ e.isException = true ∧ r.1.terminated_ = false) := by
  induction fuel with
  | zero =>
    intro c s r hm h
    rw [ChildProcess.terminate_loop] at h
    split at h
    · rename_i ht
      simp only [Option.some.injEq] at h
      subst h
      exact Or.inl ⟨rfl, ht⟩
    · simp at h
  | succ fuel ih =>
    intro c s r hm h
    rw [ChildProcess.terminate_loop] at h
    split at h
    · rename_i ht
      simp only [Option.some.injEq] at h
      subst h
      exact Or.inl ⟨rfl, ht⟩
    · rename_i ht
      have htf : c.terminated_ = false := by simpa using ht
      split at h
      · rename_i e s1 hres
        simp only [Option.some.injEq] at h
        subst h
        exact Or.inr ⟨e, rfl, resume_error K c s s1 e hm hres, htf⟩
      · split at h
        · rename_i e s2 hsig
          simp only [Option.some.injEq] at h
          subst h
          exact Or.inr ⟨e, rfl, signal_error K _ c _ s2 e hm hsig, htf⟩
        · split at h
          · rename_i e s3 hwait
            simp only [Option.some.injEq] at h
            subst h
            exact Or.inr ⟨e, rfl, wait_error K false c _ s3 e hm htf hwait, htf⟩
          · rename_i c1 s3 hwait
            obtain ⟨-, -, hm1, -⟩ := wait_ok_frame K false c c1 _ s3 hwait
            exact ih c1 s3 r hm1 h

/-- The blocking waits of two logs, one after the other. -/
theorem blocking_waits_append (l t : List Call) :
    blocking_waits (l ++ t) = blocking_waits l ++ blocking_waits t := by
  induction l with
  | nil => rfl
  | cons call l ih =>
    cases call with
    | waitid pid options r =>
      by_cases h : options = wait_options false <;> simp [blocking_waits, h, ih]
    | kill pid sig ok => simp [blocking_waits, ih]

/-- Over the logging kernel `signal` adds no `waitid` to the log. -/
theorem signal_log {σ : Type} (K : Kernel σ) (sig : Int) (c : ChildProcess) (s : σ)
    (l : List Call) :
    ∃ t, (c.signal K.logged sig (s, l)).2.2 = l ++ t ∧ blocking_waits t = [] := by
  unfold ChildProcess.signal
  split
  · exact ⟨[], by simp, rfl⟩
  · split
    · simp only [Kernel.logged]
      rcases K.kill c.pid_ sig s with ⟨ok, s1⟩
      cases ok
      · exact ⟨[Call.kill c.pid_ sig false], rfl, rfl⟩
      · exact ⟨[Call.kill c.pid_ sig true], rfl, rfl⟩
    · exact ⟨[], by simp, rfl⟩

/-- Over the logging kernel `resume` adds no `waitid` to the log. -/
theorem resume_log {σ : Type} (K : Kernel σ) (c : ChildProcess) (s : σ) (l : List Call) :
    ∃ t, (c.resume K.logged (s, l)).2.2 = l ++ t ∧ blocking_waits t = [] := by
  unfold ChildProcess.resume
  split
  · exact ⟨[], by simp, rfl⟩
  · split
    · exact signal_log K SIGCONT c s l
    · exact ⟨[], by simp, rfl⟩

/-- A `wait` that returns a handle which is not terminated was answered with a
stop or a continue. -/
theorem wait_ok_answer {σ : Type} (K : Kernel σ) (nonblocking : Bool) (c c1 : ChildProcess)
    (s : σ) (h : (c.wait K nonblocking s).1 = .ok c1) (hc1 : c1.terminated_ = false) :
    ∃ infop, (K.waitid c.pid_ (wait_options nonblocking) s).1 = some infop
      ∧ (infop.si_code = CLD_STOPPED ∨ infop.si_code = CLD_CONTINUED) := by
  unfold ChildProcess.wait at h
  split at h
  · simp at h
  · split at h
    · simp at h
    · rcases hk : K.waitid c.pid_ (wait_options nonblocking) s with ⟨a, s1⟩
      rw [hk] at h
      cases a with
      | none => simp at h
      | some infop =>
        refine ⟨infop, rfl, ?_⟩
        simp only at h
        split_ifs at h with h1 h2 h3 h4 h5 h6 h7
        all_goals first
          | exact Or.inl h6
          | exact Or.inr h7
          | (simp only [Except.ok.injEq] at h
             rw [← h] at hc1
             simp at hc1)

/-- The destructor's loop is still running after `fuel` rounds only if each of
these rounds ended with a blocking `wait` that reported a stop or a
continue. -/
theorem terminate_loop_rounds {σ : Type} (K : Kernel σ) (fuel : Nat) :
    ∀ (c : ChildProcess) (s : σ) (l : List Call),
      c.moved_away_ = false → (c.terminate_loop K.logged fuel (s, l)).1 = none →
      ∃ t, (c.terminate_loop K.logged fuel (s, l)).2.2 = l ++ t
        ∧ (blocking_waits t).length = fuel
        ∧ ∀ a ∈ blocking_waits t, ∃ infop, a = some infop
            ∧ (infop.si_code = CLD_STOPPED ∨ infop.si_code = CLD_CONTINUED) := by
  induction fuel with
  | zero =>
    intro c s l _ h
    rw [ChildProcess.terminate_loop] at h ⊢
    split at h
    · simp at h
    · rename_i ht
      rw [if_neg ht]
      exact ⟨[], by simp, rfl, by simp [blocking_waits]⟩
  | succ fuel ih =>
    intro c s l hm h
    rw [ChildProcess.terminate_loop] at h ⊢
    split at h
    · simp at h
    · rename_i ht
      have htf : c.terminated_ = false := by simpa using ht
      rw [if_neg ht]
      obtain ⟨t1, ht1, hb1⟩ := resume_log K c s l
      rcases hres : c.resume K.logged (s, l) with ⟨r1, ⟨s1, l1⟩⟩
      rw [hres] at h ht1
      simp only at ht1
      subst ht1
      rcases r1 with e | u
      · simp at h
      simp only at h ⊢
      obtain ⟨t2, ht2, hb2⟩ := signal_log K c.graceful_termination_signal_ c s1 (l ++ t1)
      rcases hsig : c.signal K.logged c.graceful_termination_signal_ (s1, l ++ t1)
        with ⟨r2, ⟨s2, l2⟩⟩
      rw [hsig] at h ht2
      simp only at ht2
      subst ht2
      rcases r2 with e | u
      · simp at h
      simp only at h ⊢
      have hcall := (wait_call K false c s2 (l ++ t1 ++ t2) hm htf).1
      rw [hcall] at h ⊢
      rcases hq : (c.wait K false s2).1 with e | c1
      · rw [hq] at h
        simp at h
      rw [hq] at h
      simp only at h ⊢
      have hm1 : c1.moved_away_ = false := by
        rcases hq2 : c.wait K false s2 with ⟨q, s3⟩
        rw [hq2] at hq
        simp only at hq
        subst hq
        exact (wait_ok_frame K false c c1 s2 s3 hq2).2.2.1
      have hc1 : c1.terminated_ = false := by
        by_contra hc
        have hc : c1.terminated_ = true := by simpa using hc
        cases fuel <;> simp [ChildProcess.terminate_loop, hc] at h
      obtain ⟨infop, hans, hcode⟩ := wait_ok_answer K false c c1 s2 hq hc1
      obtain ⟨t4, ht4, hlen, hall⟩ := ih c1 _ _ hm1 h
      refine ⟨t1 ++ t2 ++ [Call.waitid c.pid_ (wait_options false)
        (K.waitid c.pid_ (wait_options false) s2).1] ++ t4, ?_, ?_, ?_⟩
      · rw [ht4]
        simp
      · simp [blocking_waits_append, hb1, hb2, blocking_waits, hlen]
      · intro a ha
        simp only [blocking_waits_append, hb1, hb2, blocking_waits, if_true, List.nil_append,
          List.cons_append, List.mem_cons] at ha
        rcases ha with rfl | ha
        · exact ⟨infop, hans, hcode⟩
        · exact hall a ha

/-- Over the logging kernel `signal` answers as over the kernel itself and
appends its calls to the log. -/
theorem signal_logged {σ : Type} (K : Kernel σ) (sig : Int) (c : ChildProcess) (s : σ)
    (l : List Call) :
    c.signal K.logged sig (s, l)
      = ((c.signal K sig s).1,
          ((c.signal K sig s).2, l ++ (c.signal K.logged sig (s, [])).2.2)) := by
  by_cases hm : c.moved_away_ = true
  · simp [ChildProcess.signal, hm]
  · by_cases ht : c.terminated_ = true
    · simp [ChildProcess.signal, hm, ht]
    · simp only [ChildProcess.signal, hm, ht, if_false, Bool.not_false, if_true,
        Bool.not_eq_true, Kernel.logged]
      rcases K.kill c.pid_ sig s with ⟨ok, s1⟩
      cases ok <;> simp

/-- Over the logging kernel `resume` answers as over the kernel itself and
appends its calls to the log. -/
theorem resume_logged {σ : Type} (K : Kernel σ) (c : ChildProcess) (s : σ) (l : List Call) :
    c.resume K.logged (s, l)
      = ((c.resume K s).1, ((c.resume K s).2, l ++ (c.resume K.logged (s, [])).2.2)) := by
  by_cases hm : c.moved_away_ = true
  · simp [ChildProcess.resume, hm]
  · by_cases hr : c.running_ = true
    · simp [ChildProcess.resume, hm, hr]
    · simp only [ChildProcess.resume, hm, hr, if_false, Bool.not_false, if_true,
        Bool.not_eq_true]
      exact signal_logged K SIGCONT c s l

/-- Over the logging kernel the destructor's loop ends as over the kernel
itself. -/
theorem terminate_loop_logged {σ : Type} (K : Kernel σ) (fuel : Nat) :
    ∀ (c : ChildProcess) (s : σ) (l : List Call),
      (c.terminate_loop K.logged fuel (s, l)).1 = (c.terminate_loop K fuel s).1
        ∧ (c.terminate_loop K.logged fuel (s, l)).2.1 = (c.terminate_loop K fuel s).2 := by
  induction fuel with
  | zero =>
    intro c s l
    rw [ChildProcess.terminate_loop, ChildProcess.terminate_loop]
    split <;> exact ⟨rfl, rfl⟩
  | succ fuel ih =>
    intro c s l
    rw [ChildProcess.terminate_loop, ChildProcess.terminate_loop]
    split
    · exact ⟨rfl, rfl⟩
    · rw [resume_logged K c s l]
      rcases c.resume K s with ⟨r1, s1⟩
      rcases r1 with e | u
      · exact ⟨rfl, rfl⟩
      simp only
      rw [signal_logged K _ c s1 _]
      rcases c.signal K c.graceful_termination_signal_ s1 with ⟨r2, s2⟩
      rcases r2 with e | u
      · exact ⟨rfl, rfl⟩
      simp only
      rw [wait_logged K false c s2 _]
      rcases c.wait K false s2 with ⟨q, s3⟩
      rcases q with e | c1
      · exact ⟨rfl, rfl⟩
      · exact ih c1 s3 _

/-- Over the logging kernel the destructor ends as over the kernel itself. -/
theorem destroy_logged {σ : Type} (K : Kernel σ) (fuel : Nat) (c : ChildProcess) (s : σ)
    (l : List Call) :
    (c.destroy K.logged fuel (s, l)).1 = (c.destroy K fuel s).1 := by
  unfold ChildProcess.destroy
  split
  · rfl
  · obtain ⟨h1, -⟩ := terminate_loop_logged K fuel c s l
    rcases hl : c.terminate_loop K.logged fuel (s, l) with ⟨r, st⟩
    rcases hk : c.terminate_loop K fuel s with ⟨r0, s0⟩
    rw [hl, hk] at h1
    simp only at h1
    subst h1
    rcases r with _ | ⟨c1, _ | e1⟩
    · rfl
    · rfl
    · simp only
      split <;> rfl

/-- Applying a change leaves the pid, the graceful termination signal and
`moved_away_` as they were. -/
theorem after_change_frame (c : ChildProcess) (infop : siginfo_t) :
    (c.after_change infop).pid_ = c.pid_
      ∧ (c.after_change infop).graceful_termination_signal_ = c.graceful_termination_signal_
      ∧ (c.after_change infop).moved_away_ = c.moved_away_ := by
  unfold ChildProcess.after_change
  split_ifs <;> exact ⟨rfl, rfl, rfl⟩

/-- What `signal` does over the logging kernel on a handle that passes its
checks: one `kill`, delivered or not. -/
theorem signal_exact {σ : Type} (K : Kernel σ) (sig : Int) (c : ChildProcess) (s : σ)
    (l : List Call) (hm : c.moved_away_ = false) (ht : c.terminated_ = false) :
    (∃ s1, c.signal K.logged sig (s, l) = (.ok (), (s1, l ++ [Call.kill c.pid_ sig true])))
      ∨ (∃ s1, c.signal K.logged sig (s, l)
          = (.error (.unix_error "kill"), (s1, l ++ [Call.kill c.pid_ sig false]))) := by
  simp only [ChildProcess.signal, hm, ht, Bool.false_eq_true, if_false, Bool.not_false,
    if_true, Kernel.logged]
  rcases K.kill c.pid_ sig s with ⟨ok, s1⟩
  cases ok
  · exact Or.inr ⟨s1, rfl⟩
  · exact Or.inl ⟨s1, rfl⟩

/-- What `resume` does over the logging kernel on a handle that passes its
checks: a `SIGCONT`, delivered or not, if the child is stopped. -/
theorem resume_exact {σ : Type} (K : Kernel σ) (c : ChildProcess) (s : σ)
    (l : List Call) (hm : c.moved_away_ = false) (ht : c.terminated_ = false) :
    (∃ s1, c.resume K.logged (s, l) = (.ok (), (s1, l ++ resume_sends c)))
      ∨ (c.running_ = false ∧ ∃ s1, c.resume K.logged (s, l)
          = (.error (.unix_error "kill"), (s1, l ++ [Call.kill c.pid_ SIGCONT false]))) := by
  by_cases hr : c.running_ = true
  · left
    exact ⟨s, by simp [ChildProcess.resume, resume_sends, hm, hr]⟩
  · have hrf : c.running_ = false := by simpa using hr
    have hres : c.resume K.logged (s, l) = c.signal K.logged SIGCONT (s, l) := by
      simp [ChildProcess.resume, hm, hrf]
    rw [hres]
    rcases signal_exact K SIGCONT c s l hm ht with ⟨s1, h⟩ | ⟨s1, h⟩
    · left
      exact ⟨s1, by rw [h]; simp [resume_sends, hrf]⟩
    · right
      exact ⟨hrf, s1, h⟩

/-- A `wait` that succeeds was answered with a valid state change and leaves
the handle with that change applied. -/
theorem wait_ok_eq {σ : Type} (K : Kernel σ) (nonblocking : Bool) (c c1 : ChildProcess)
    (s : σ) (h : (c.wait K nonblocking s).1 = .ok c1) :
    ∃ infop, (K.waitid c.pid_ (wait_options nonblocking) s).1 = some infop
      ∧ valid_change c.pid_ infop ∧ c1 = c.after_change infop := by
  unfold ChildProcess.wait at h
  split at h
  · simp at h
  · split at h
    · simp at h
    · rcases hk : K.waitid c.pid_ (wait_options nonblocking) s with ⟨a, s1⟩
      rw [hk] at h
      cases a with
      | none => simp at h
      | some infop =>
        refine ⟨infop, rfl, ?_⟩
        simp only at h
        unfold valid_change ChildProcess.after_change
        split_ifs at h with h1 h2 h3 h4 h5 h6 h7
        all_goals first
          | (simp at h; done)
          | (simp only [Except.ok.injEq] at h
             subst h
             simp only [ne_eq, not_not] at h2 h3
             simp_all [CLD_EXITED, CLD_KILLED, CLD_DUMPED, CLD_STOPPED, CLD_CONTINUED]
             try omega)

/-- A blocking `wait` on a valid state change succeeds and leaves the handle
with the change applied. -/
theorem wait_blocking_of_valid {σ : Type} (K : Kernel σ) (c : ChildProcess)
    (s s1 : σ) (infop : siginfo_t)
    (hmoved : c.moved_away_ = false) (hterm : c.terminated_ = false)
    (hcall : K.waitid c.pid_ (wait_options false) s = (some infop, s1))
    (hvalid : valid_change c.pid_ infop) :
    c.wait K false s = (.ok (c.after_change infop), s1) := by
  obtain ⟨h1, h2, h3⟩ := hvalid
  simp only [ChildProcess.wait, hmoved, hterm, hcall, Bool.false_eq_true, if_false,
    Bool.false_and, h1, h2, ne_eq, not_true_eq_false]
  unfold ChildProcess.after_change
  rcases h3 with h | h | h | h | h <;> simp [h, hmoved, hterm, CLD_EXITED, CLD_KILLED,
    CLD_DUMPED, CLD_STOPPED, CLD_CONTINUED]

/-- The loop of the destructor does nothing on a terminated handle. -/
theorem terminate_loop_of_terminated {σ : Type} (K : Kernel σ) (fuel : Nat)
    (c : ChildProcess) (s : σ) (h : c.terminated_ = true) :
    c.terminate_loop K fuel s = (some (c, none), s) := by
  cases fuel <;> simp [ChildProcess.terminate_loop, h]

/-- The members of a list without its last element, when an element is put in
front. -/
theorem mem_dropLast_cons {α : Type} (a x : α) (l : List α) (h : x ∈ (a :: l).dropLast) :
    x = a ∨ x ∈ l.dropLast := by
  cases l with
  | nil => simp at h
  | cons b l =>
    rw [List.dropLast_cons₂] at h
    exact List.mem_cons.1 h

/-- The calls of the destructor's loop follow its protocol: whole rounds of
resume, graceful termination signal and blocking wait, each but the last ended
by a stop or a continue, followed by nothing if the loop ended on a terminated
handle or ran out of fuel, and by the calls of the interrupted round if an
exception ended it. -/
theorem terminate_loop_protocol {σ : Type} (K : Kernel σ) (fuel : Nat) :
    ∀ (c : ChildProcess) (s : σ) (l : List Call), c.moved_away_ = false →
      ∃ changes tail,
        (c.terminate_loop K.logged fuel (s, l)).2.2 = l ++ rounds c changes ++ tail
        ∧ (∀ infop ∈ changes, valid_change c.pid_ infop)
        ∧ (∀ infop ∈ changes.dropLast,
            infop.si_code = CLD_STOPPED ∨ infop.si_code = CLD_CONTINUED)
        ∧ ((c.terminate_loop K.logged fuel (s, l)).1 = none →
            tail = [] ∧ changes.length = fuel
              ∧ ∀ infop ∈ changes, infop.si_code = CLD_STOPPED ∨ infop.si_code = CLD_CONTINUED)
        ∧ (∀ c1, (c.terminate_loop K.logged fuel (s, l)).1 = some (c1, none) →
            tail = [] ∧ c1 = changes.foldl ChildProcess.after_change c
              ∧ c1.terminated_ = true)
        ∧ (∀ c1 e, (c.terminate_loop K.logged fuel (s, l)).1 = some (c1, some e) →
            c1 = changes.foldl ChildProcess.after_change c ∧ interrupted_round c1 tail
              ∧ (∀ infop ∈ changes,
                  infop.si_code = CLD_STOPPED ∨ infop.si_code = CLD_CONTINUED)
              ∧ c1.terminated_ = false) := by
  induction fuel with
  | zero =>
    intro c s l _
    rw [ChildProcess.terminate_loop]
    by_cases ht : c.terminated_ = true
    · rw [if_pos ht]
      refine ⟨[], [], by simp [rounds], by simp, by simp, by simp, ?_, by simp⟩
      intro c1 h
      simp only [Option.some.injEq, Prod.mk.injEq, and_true] at h
      subst h
      exact ⟨rfl, rfl, ht⟩
    · rw [if_neg ht]
      exact ⟨[], [], by simp [rounds], by simp, by simp, fun _ => ⟨rfl, rfl, by simp⟩,
        by simp, by simp⟩
  | succ fuel ih =>
    intro c s l hm
    by_cases ht : c.terminated_ = true
    · rw [terminate_loop_of_terminated K.logged (fuel + 1) c (s, l) ht]
      refine ⟨[], [], by simp [rounds], by simp, by simp, by simp, ?_, by simp⟩
      intro c1 h
      simp only [Option.some.injEq, Prod.mk.injEq, and_true] at h
      subst h
      exact ⟨rfl, rfl, ht⟩
    have htf : c.terminated_ = false := by simpa using ht
    rw [ChildProcess.terminate_loop, if_neg ht]
    rcases resume_exact K c s l hm htf with ⟨s1, hres⟩ | ⟨hr, s1, hres⟩
    swap
    · rw [hres]
      refine ⟨[], [Call.kill c.pid_ SIGCONT false], by simp [rounds], by simp, by simp,
        by simp, by simp, ?_⟩
      intro c1 e h
      simp only [Option.some.injEq, Prod.mk.injEq] at h
      obtain ⟨rfl, -⟩ := h
      exact ⟨rfl, Or.inl ⟨hr, rfl⟩, by simp, htf⟩
    rw [hres]
    simp only
    rcases signal_exact K c.graceful_termination_signal_ c s1 (l ++ resume_sends c) hm htf
      with ⟨s2, hsig⟩ | ⟨s2, hsig⟩
    swap
    · rw [hsig]
      refine ⟨[], resume_sends c ++ [Call.kill c.pid_ c.graceful_termination_signal_ false],
        by simp [rounds], by simp, by simp, by simp, by simp, ?_⟩
      intro c1 e h
      simp only [Option.some.injEq, Prod.mk.injEq] at h
      obtain ⟨rfl, -⟩ := h
      exact ⟨rfl, Or.inr (Or.inl rfl), by simp, htf⟩
    rw [hsig]
    simp only
    rw [(wait_call K false c s2 _ hm htf).1]
    rcases hq : (c.wait K false s2).1 with e | c1
    · refine ⟨[], round_sends c ++ [Call.waitid c.pid_ (wait_options false)
          (K.waitid c.pid_ (wait_options false) s2).1],
        by simp [rounds, round_sends], by simp, by simp, by simp, by simp, ?_⟩
      intro c1 e1 h
      simp only [Option.some.injEq, Prod.mk.injEq] at h
      obtain ⟨rfl, -⟩ := h
      refine ⟨rfl, Or.inr (Or.inr ⟨_, rfl, ?_⟩), by simp, htf⟩
      intro infop hans hval
      have hok := wait_blocking_of_valid K c s2 _ infop hm htf (Prod.ext hans rfl) hval
      rw [hok] at hq
      simp at hq
    · simp only
      obtain ⟨infop, hans, hval, hc1⟩ := wait_ok_eq K false c c1 s2 hq
      obtain ⟨hpid1, -, hm1⟩ := after_change_frame c infop
      rw [← hc1] at hpid1 hm1
      rw [hans]
      by_cases hc1t : c1.terminated_ = true
      · rw [terminate_loop_of_terminated K.logged fuel c1 _ hc1t]
        refine ⟨[infop], [], by simp [rounds, round_sends, hc1], ?_, by simp, by simp, ?_,
          by simp⟩
        · intro x hx
          rw [List.mem_singleton.1 hx]
          exact hval
        · intro c2 h
          simp only [Option.some.injEq, Prod.mk.injEq, and_true] at h
          subst h
          exact ⟨rfl, by simp [hc1], hc1t⟩
      · have hc1f : c1.terminated_ = false := by simpa using hc1t
        obtain ⟨infop2, hans2, hsc⟩ := wait_ok_answer K false c c1 s2 hq hc1f
        rw [hans] at hans2
        simp only [Option.some.injEq] at hans2
        subst hans2
        obtain ⟨changes, tail, hlog, hvalid, hdl, hnone, hdone, hcut⟩ :=
          ih c1 (K.waitid c.pid_ (wait_options false) s2).2
            (l ++ resume_sends c ++ [Call.kill c.pid_ c.graceful_termination_signal_ true]
              ++ [Call.waitid c.pid_ (wait_options false) (some infop)])
            (hm1.trans hm)
        refine ⟨infop :: changes, tail, ?_, ?_, ?_, ?_, ?_, ?_⟩
        · rw [hlog]
          simp [rounds, round_sends, hc1]
        · intro x hx
          rcases List.mem_cons.1 hx with rfl | hx
          · exact hval
          · rw [← hpid1]
            exact hvalid x hx
        · intro x hx
          rcases mem_dropLast_cons infop x changes hx with rfl | hx
          · exact hsc
          · exact hdl x hx
        · intro h
          obtain ⟨h1, h2, h3⟩ := hnone h
          refine ⟨h1, by simp [h2], ?_⟩
          intro x hx
          rcases List.mem_cons.1 hx with rfl | hx
          · exact hsc
          · exact h3 x hx
        · intro c2 h
          obtain ⟨h1, h2, h3⟩ := hdone c2 h
          exact ⟨h1, by rw [h2, hc1]; rfl, h3⟩
        · intro c2 e h
          obtain ⟨h1, h2, h3, h4⟩ := hcut c2 e h
          refine ⟨by rw [h1, hc1]; rfl, h2, ?_, h4⟩
          intro x hx
          rcases List.mem_cons.1 hx with rfl | hx
          · exact hsc
          · exact h3 x hx

/-- C6 (as amended): for a handle that is not moved away, no failure leaves the
destructor; when it completes, either no exception was caught and the handle
is terminated, or a round of resume, signal, blocking wait raised an exception,
which the destructor caught and printed, and the handle is still not
terminated.  The loop is still running after `fuel` rounds only if each of
them ended with a blocking `wait` that reported a stop or a continue (the
calls are those that the logging kernel records for the same run).  The calls
of the destructor are exactly those of its protocol: for each state change that
a blocking wait reports, one round of `SIGCONT` if the handle is stopped, the
graceful termination signal, and the blocking wait, every round but the last
ended by a stop or a continue and the next one starting from the handle with
the change applied; after the whole rounds comes nothing when no exception was
caught, and the calls of the interrupted round when one was. -/
theorem destroy_reaps_or_logs {σ : Type} (K : Kernel σ) (fuel : Nat) (c : ChildProcess)
    (s : σ) (hm : c.moved_away_ = false) :
    (∀ e, (c.destroy K fuel s).1 ≠ some (.error e))
    ∧ (∀ d, (c.destroy K fuel s).1 = some (.ok d) →
        (d.caught = none ∧ d.handle.terminated_ = true)
          ∨ (∃ e, d.caught = some e ∧ e.isException = true ∧ d.handle.terminated_ = false))
    ∧ ((c.destroy K fuel s).1 = none →
        (blocking_waits (c.destroy K.logged fuel (s, [])).2.2).length = fuel
          ∧ ∀ a ∈ blocking_waits (c.destroy K.logged fuel (s, [])).2.2,
              ∃ infop, a = some infop
                ∧ (infop.si_code = CLD_STOPPED ∨ infop.si_code = CLD_CONTINUED))
    ∧ (∃ changes tail,
        (c.destroy K.logged fuel (s, [])).2.2 = rounds c changes ++ tail
        ∧ (∀ infop ∈ changes, valid_change c.pid_ infop)
        ∧ (∀ infop ∈ changes.dropLast,
            infop.si_code = CLD_STOPPED ∨ infop.si_code = CLD_CONTINUED)
        ∧ ((c.destroy K fuel s).1 = none → tail = [] ∧ changes.length = fuel)
        ∧ (∀ d, (c.destroy K fuel s).1 = some (.ok d) →
            d.handle = changes.foldl ChildProcess.after_change c
              ∧ (d.caught = none → tail = [])
              ∧ (d.caught ≠ none → interrupted_round d.handle tail
                  ∧ ∀ infop ∈ changes,
                      infop.si_code = CLD_STOPPED ∨ infop.si_code = CLD_CONTINUED))) := by
  refine ⟨?_, ?_, ?_, ?_⟩
  · intro e h
    simp only [ChildProcess.destroy, hm, Bool.false_eq_true, if_false] at h
    rcases hl : c.terminate_loop K fuel s with ⟨r, s1⟩
    rw [hl] at h
    rcases r with _ | ⟨c1, _ | e1⟩
    · simp at h
    · simp at h
    · have hspec := terminate_loop_spec K fuel c s (c1, some e1) hm (by rw [hl])
      rcases hspec with ⟨h0, -⟩ | ⟨e2, h2, hex, -⟩
      · simp at h0
      · simp only [Option.some.injEq] at h2
        subst h2
        simp [hex] at h
  · intro d h
    simp only [ChildProcess.destroy, hm, Bool.false_eq_true, if_false] at h
    rcases hl : c.terminate_loop K fuel s with ⟨r, s1⟩
    rw [hl] at h
    rcases r with _ | ⟨c1, _ | e1⟩
    · simp at h
    · have hspec := terminate_loop_spec K fuel c s (c1, none) hm (by rw [hl])
      simp only [Option.some.injEq, Except.ok.injEq] at h
      subst h
      rcases hspec with ⟨-, h1⟩ | ⟨e2, h2, -, -⟩
      · exact Or.inl ⟨rfl, h1⟩
      · simp at h2
    · have hspec := terminate_loop_spec K fuel c s (c1, some e1) hm (by rw [hl])
      rcases hspec with ⟨h0, -⟩ | ⟨e2, h2, hex, hnt⟩
      · simp at h0
      · simp only [Option.some.injEq] at h2
        subst h2
        simp only [hex, if_true, Option.some.injEq, Except.ok.injEq] at h
        subst h
        exact Or.inr ⟨e1, rfl, hex, hnt⟩
  · intro h
    rw [← destroy_logged K fuel c s []] at h
    simp only [ChildProcess.destroy, hm, Bool.false_eq_true, if_false] at h ⊢
    rcases hl : c.terminate_loop K.logged fuel (s, []) with ⟨r, st⟩
    rw [hl] at h
    rcases r with _ | ⟨c1, _ | e1⟩
    · obtain ⟨t, ht, hlen, hall⟩ := terminate_loop_rounds K fuel c s [] hm (by rw [hl])
      rw [hl] at ht
      simp only [List.nil_append] at ht
      subst ht
      exact ⟨hlen, hall⟩
    · simp at h
    · exfalso
      simp only at h
      split_ifs at h
  · obtain ⟨changes, tail, hlog, hvalid, hdl, hnone, hdone, hcut⟩ :=
      terminate_loop_protocol K fuel c s [] hm
    rw [List.nil_append] at hlog
    have hrun : (c.destroy K fuel s).1 = (c.destroy K.logged fuel (s, [])).1 :=
      (destroy_logged K fuel c s []).symm
    rw [hrun]
    simp only [ChildProcess.destroy, hm, Bool.false_eq_true, if_false]
    rcases hl : c.terminate_loop K.logged fuel (s, []) with ⟨r, st⟩
    rw [hl] at hlog hnone hdone hcut
    simp only at hlog hnone hdone hcut
    rcases r with _ | ⟨c1, _ | e1⟩
    · exact ⟨changes, tail, hlog, hvalid, hdl, fun _ => ⟨(hnone rfl).1, (hnone rfl).2.1⟩,
        fun d h => by simp at h⟩
    · obtain ⟨h1, h2, -⟩ := hdone c1 rfl
      refine ⟨changes, tail, hlog, hvalid, hdl, fun h => by simp at h, ?_⟩
      intro d h
      simp only [Option.some.injEq, Except.ok.injEq] at h
      subst h
      exact ⟨h2, fun _ => h1, fun h => absurd rfl h⟩
    · obtain ⟨h1, h2, h3, -⟩ := hcut c1 e1 rfl
      by_cases hex : e1.isException = true
      · simp only [hex, if_true]
        refine ⟨changes, tail, hlog, hvalid, hdl, fun h => by simp at h, ?_⟩
        intro d h
        simp only [Option.some.injEq, Except.ok.injEq] at h
        subst h
        exact ⟨h1, fun h => by simp at h, fun _ => ⟨h2, h3⟩⟩
      · simp only [hex, if_false]
        exact ⟨changes, tail, hlog, hvalid, hdl, fun h => by simp at h,
          fun d h => by simp at h⟩

/-- C6 as stated fails when a step of the loop raises: on a running child
whose `waitid` fails, the first round raises in `wait`, the destructor catches
the exception and completes, and the handle is still not terminated. -/
theorem destroy_leaves_unreaped :
    (fresh_child 5).moved_away_ = false ∧ (fresh_child 5).terminated_ = false
    ∧ (fresh_child 5).destroy waitid_fails 1 ()
        = (some (.ok { handle := fresh_child 5, caught := some (.unix_error "waitid") }), ())
    ∧ (fresh_child 5).destroy waitid_fails.logged 1 ((), [])
        = (some (.ok { handle := fresh_child 5, caught := some (.unix_error "waitid") }),
            ((), [Call.kill 5 SIGTERM true, Call.waitid 5 (wait_options false) none])) :=
  ⟨rfl, rfl, rfl, rfl⟩

/-- C6 as amended, at a child that is found stopped, then continued, and is
killed by the third graceful signal: three rounds, with a `SIGCONT` in the
second, nothing caught, handle terminated. -/
theorem destroy_reaps_or_logs_witness :
    ∃ d, (fresh_child 5).destroy scripted 3 stop_continue_kill = (some (.ok d), [])
      ∧ d.handle = { fresh_child 5 with terminated_ := true, exit_status_ := 15,
                                        died_on_signal_ := true }
      ∧ d.caught = none ∧ d.handle.terminated_ = true
      ∧ ((fresh_child 5).destroy scripted.logged 3 (stop_continue_kill, [])).2.2
          = [Call.kill 5 SIGTERM true,
             Call.waitid 5 (wait_options false) (some (change 5 CLD_STOPPED 19)),
             Call.kill 5 SIGCONT true, Call.kill 5 SIGTERM true,
             Call.waitid 5 (wait_options false) (some (change 5 CLD_CONTINUED 18)),
             Call.kill 5 SIGTERM true,
             Call.waitid 5 (wait_options false) (some (change 5 CLD_KILLED 15))] := by
  refine ⟨{ handle := { fresh_child 5 with terminated_ := true, exit_status_ := 15,
                                           died_on_signal_ := true },
            caught := none }, rfl, rfl, ?_, ?_, rfl⟩
  all_goals
    rcases (destroy_reaps_or_logs scripted 3 (fresh_child 5) stop_continue_kill rfl).2.1
      { handle := { fresh_child 5 with terminated_ := true, exit_status_ := 15,
                                       died_on_signal_ := true },
        caught := none } rfl with h | ⟨e, h, -⟩
  · exact h.1
  · exact absurd h (by simp)
  · exact h.2
  · exact absurd h (by simp)

/-! ## `run` -/

/-- Every result of `handle_signal` is `Exit` with `EXIT_FAILURE` or
`Continue` with `EXIT_SUCCESS`. -/
theorem handle_signal_result {σ : Type} (K : Kernel σ) (sig : signalfd_siginfo)
    (pm : ProcessManager) (s : σ) (r : Result) (h : (pm.handle_signal K sig s).1.1 = .ok r) :
    r = { result := .Exit, exit_status := EXIT_FAILURE }
      ∨ r = { result := .Continue, exit_status := EXIT_SUCCESS } := by
  by_cases hscan : (sig.ssi_signo : Int) = SIGCHLD ∧ pm.child_processes_ ≠ []
  · rw [handle_signal_of_sigchld K sig pm s hscan.1 hscan.2] at h
    rcases hs : (scan_children K pm.child_processes_ s).1.1 with e | o
    · rw [hs] at h
      simp [Except.map] at h
    · rw [hs] at h
      simp only [Except.map, Except.ok.injEq] at h
      cases o with
      | none => exact Or.inr h.symm
      | some r0 =>
        have hr0 := scan_children_some K pm.child_processes_ s r0 hs
        rw [hr0] at h
        exact Or.inl h.symm
  · have hno : (sig.ssi_signo : Int) ≠ SIGCHLD ∨ pm.child_processes_ = [] := by
      by_cases h1 : (sig.ssi_signo : Int) = SIGCHLD
      · right
        by_contra h2
        exact hscan ⟨h1, h2⟩
      · exact Or.inl h1
    rw [handle_signal_without_scan K sig pm s hno] at h
    simp only [Except.ok.injEq] at h
    exact Or.inl h.symm

/-- Whatever `ProcessManager::wait` returns is `EXIT_FAILURE`. -/
theorem wait_returned {σ : Type} (K : Kernel σ) (fuel : Nat) :
    ∀ (pm : ProcessManager) (s : σ) (status : Int),
      (ProcessManager.wait K fuel pm s).1.1 = .returned status → status = EXIT_FAILURE := by
  induction fuel with
  | zero =>
    intro pm s status h
    simp [ProcessManager.wait] at h
  | succ fuel ih =>
    intro pm s status h
    rw [ProcessManager.wait] at h
    split at h
    · simp at h
    · split at h
      · simp at h
      · rename_i ret pm1 s2 hret
        split at h
        · rename_i hexit
          simp only [Outcome.returned.injEq] at h
          rcases handle_signal_result K _ pm _ ret (by rw [hret]) with hr | hr
          · rw [← h, hr]
          · rw [hr] at hexit
            simp at hexit
        · exact ih pm1 s2 status h

/-- With no tracked child, `ProcessManager::wait` blocks for ever if no signal
arrives and returns `EXIT_FAILURE` on the first signal that does; the table
stays empty. -/
theorem wait_of_empty {σ : Type} (K : Kernel σ) (fuel : Nat) (s : σ) :
    ProcessManager.wait K (fuel + 1) { child_processes_ := [] } s
      = (((match (K.read_signal s).1 with
            | none => Outcome.never
            | some _ => Outcome.returned EXIT_FAILURE),
          { child_processes_ := [] }), (K.read_signal s).2) := by
  rw [ProcessManager.wait]
  rcases K.read_signal s with ⟨o, s1⟩
  cases o with
  | none => rfl
  | some sig =>
    simp only
    rw [handle_signal_without_scan K sig _ s1 (Or.inr rfl)]
    rfl

/-- Whatever `run` returns is `EXIT_FAILURE`. -/
theorem run_returned {σ : Type} (K : Kernel σ) (termination_signal : Int) (fuel : Nat)
    (program : String) (pm : ProcessManager) (s : σ) (status : Int)
    (h : (pm.run K termination_signal fuel program s).1.1 = .returned status) :
    status = EXIT_FAILURE := by
  unfold ProcessManager.run at h
  split at h
  · exact wait_returned K fuel _ _ status h
  · simp at h
  · simp at h
  · simp at h

/-- C5 (as amended): a supervisor without children that spawns one child
(`fork` returns `pid`, not `0`, to the parent), and to which `SIGCHLD` is
delivered when that child has exited normally with status 0, handles the
signal with `Continue`, leaving the table empty, and polls again: `run` does
not return on that notification.  From there it blocks for ever if no further
signal arrives and returns `EXIT_FAILURE` on the next signal; whatever the
kernel does, `run` never returns 0. -/
theorem run_continues_after_zero_exit {σ : Type} (K : Kernel σ) (termination_signal : Int)
    (fuel : Nat) (program : String) (s s1 s2 s3 s4 s5 : σ) (pid : Int)
    (sig : signalfd_siginfo) (infop : siginfo_t)
    (hstat : K.stat_nlink s = (some 3, s1))
    (hfork : K.fork s1 = (some pid, s2)) (hpid : pid ≠ 0)
    (hsig : K.read_signal s2 = (some sig, s3)) (hchld : (sig.ssi_signo : Int) = SIGCHLD)
    (hprobe : K.waitid pid waitable_options s3 = (some infop, s4))
    (hwaitable : infop.si_pid = pid)
    (hreap : K.waitid pid (wait_options true) s4 = (some (change pid CLD_EXITED 0), s5)) :
    ProcessManager.run_as_child K termination_signal (fuel + 1) program
        { child_processes_ := [] } s
      = ((.returned (),
          { child_processes_ :=
              [(pid, { name_ := program, pid_ := pid, running_ := true, terminated_ := false,
                       exit_status_ := 0, died_on_signal_ := false,
                       graceful_termination_signal_ := termination_signal,
                       moved_away_ := false })] }), s2)
    ∧ ProcessManager.handle_signal K sig
        { child_processes_ :=
            [(pid, { name_ := program, pid_ := pid, running_ := true, terminated_ := false,
                     exit_status_ := 0, died_on_signal_ := false,
                     graceful_termination_signal_ := termination_signal,
                     moved_away_ := false })] } s3
      = ((.ok { result := .Continue, exit_status := EXIT_SUCCESS },
          { child_processes_ := [] }), s5)
    ∧ ProcessManager.run K termination_signal (fuel + 1) program { child_processes_ := [] } s
      = ProcessManager.wait K fuel { child_processes_ := [] } s5
    ∧ ProcessManager.run K termination_signal (fuel + 2) program { child_processes_ := [] } s
      = (((match (K.read_signal s5).1 with
            | none => Outcome.never
            | some _ => Outcome.returned EXIT_FAILURE),
          { child_processes_ := [] }), (K.read_signal s5).2)
    ∧ (∀ n status,
        (ProcessManager.run K termination_signal n program { child_processes_ := [] } s).1.1
          = .returned status → status = EXIT_FAILURE)
    ∧ EXIT_FAILURE ≠ 0 := by
  have hspawn : ∀ n, ProcessManager.run_as_child K termination_signal n program
        { child_processes_ := [] } s
      = ((.returned (),
          { child_processes_ :=
              [(pid, { name_ := program, pid_ := pid, running_ := true, terminated_ := false,
                       exit_status_ := 0, died_on_signal_ := false,
                       graceful_termination_signal_ := termination_signal,
                       moved_away_ := false })] }), s2) := by
    intro n
    simp [ProcessManager.run_as_child, ChildProcess.create, do_fork, hstat, hfork, hpid,
      ChildProcess.move, emplace]
  have hhandle : ProcessManager.handle_signal K sig
        { child_processes_ :=
            [(pid, { name_ := program, pid_ := pid, running_ := true, terminated_ := false,
                     exit_status_ := 0, died_on_signal_ := false,
                     graceful_termination_signal_ := termination_signal,
                     moved_away_ := false })] } s3
      = ((.ok { result := .Continue, exit_status := EXIT_SUCCESS },
          { child_processes_ := [] }), s5) := by
    rw [handle_signal_of_sigchld K sig _ s3 hchld (by simp)]
    simp only [scan_children]
    rw [waitable_of_answer K _ s3 s4 infop rfl rfl hprobe]
    simp only [hwaitable, hpid, if_true, if_false]
    rw [wait_of_answer K true _ s4 s5 _ rfl rfl hpid hreap rfl rfl]
    simp [change, Except.map]
  have hrun : ∀ n, ProcessManager.run K termination_signal (n + 1) program
        { child_processes_ := [] } s
      = ProcessManager.wait K n { child_processes_ := [] } s5 := by
    intro n
    unfold ProcessManager.run
    rw [hspawn (n + 1)]
    simp only
    rw [ProcessManager.wait, hsig]
    simp only
    rw [hhandle]
    simp
  refine ⟨hspawn (fuel + 1), hhandle, hrun fuel, ?_, ?_, by decide⟩
  · rw [hrun (fuel + 1), wait_of_empty]
  · intro n status h
    exact run_returned K termination_signal n program _ s status h

/-- C5 as stated fails: the supervisor spawns child 5, the child exits with
status 0 and `SIGCHLD` is delivered; the table is then empty, but `run` polls
again and blocks; if a second `SIGCHLD` arrives it returns `EXIT_FAILURE`; for
no number of polls does it return 0. -/
theorem run_does_not_return_zero :
    ProcessManager.run one_child_exits_0 SIGTERM 2 "program" { child_processes_ := [] }
        [sigchld]
      = ((.never, { child_processes_ := [] }), [])
    ∧ ProcessManager.run one_child_exits_0 SIGTERM 2 "program" { child_processes_ := [] }
        [sigchld, sigchld]
      = ((.returned EXIT_FAILURE, { child_processes_ := [] }), [])
    ∧ ∀ fuel, (ProcessManager.run one_child_exits_0 SIGTERM fuel "program"
        { child_processes_ := [] } [sigchld]).1.1 ≠ .returned 0 := by
  refine ⟨rfl, rfl, ?_⟩
  intro fuel h
  have := run_returned one_child_exits_0 SIGTERM fuel "program" _ _ 0 h
  exact absurd this (by decide)

/-- C5 as amended, at the supervisor that spawns child 5 and receives one
`SIGCHLD` after the child has exited with status 0. -/
theorem run_continues_after_zero_exit_witness :
    ProcessManager.run one_child_exits_0 SIGTERM 2 "program" { child_processes_ := [] }
        [sigchld]
      = ((.never, { child_processes_ := [] }), []) :=
  ((run_continues_after_zero_exit one_child_exits_0 SIGTERM 0 "program"
    [sigchld] [sigchld] [sigchld] [] [] [] 5 sigchld (change 5 CLD_EXITED 0)
    rfl rfl (by decide) rfl rfl rfl rfl rfl).2.2.2.1).trans rfl

end Puffer
